import Mathlib

/-!
Shallow embedding of the LP04 web-page summarization pipeline
(`lp04/utilities/scraping.py`, `lp04/summary_expert/{tools,prompting,chain,graph}.py`,
`lp04/gen_summary.py`) together with theorems checking the natural-language
specification against it.

Conventions used throughout:
* Python dicts that are built by insertion and iterated in insertion order are
  embedded as association lists (`List (key × value)`) with dict-style update.
* LLM invocations are embedded as an explicit oracle parameter
  `llm : List BaseMessage → BaseMessage`; the oracle is a pure function, which
  captures that within one run every invocation on equal context is a single
  provider call returning one response message.
* Fallible Python code (exceptions) is embedded with `Except`.
-/

/-- A model-issued tool call.  In the source the arguments are a one-field dict
(`markdown_text`, `refined_text` or `combined_text`); `args` holds that single
string field. -/
structure ToolCall where
  name : String
  args : String
  id : String
deriving DecidableEq, Repr

/-- Embedding of the langchain message types used by the source:
`SystemMessage`, `HumanMessage`, `AIMessage` (which carries tool calls) and
`ToolMessage` (name, content, tool_call_id). -/
inductive BaseMessage where
  | system (content : String)
  | human (content : String)
  | ai (content : String) (tool_calls : List ToolCall)
  | tool (name : String) (content : String) (tool_call_id : String)
deriving DecidableEq, Repr

/-- The tool calls attached to a message; non-AI messages carry none. -/
def BaseMessage.tool_calls : BaseMessage → List ToolCall
  | .ai _ tcs => tcs
  | _ => []

/-- Errors raised by the embedded code. -/
inductive PipelineError where
  | invalidState (msg : String)
  | indexError
  | valueError (msg : String)
  | outOfFuel
deriving DecidableEq, Repr

/-- Bool-valued success test for `Except`. -/
def isOkE : Except ε α → Bool
  | .ok _ => true
  | .error _ => false

/-- Embedding of `tools.store_converted_page`: the body only returns its
argument (the comment in the source marks it a no-op). -/
def store_converted_page (markdown_text : String) : String :=
  markdown_text

/-- Embedding of `tools.store_refined_page_summary`: returns its argument. -/
def store_refined_page_summary (refined_text : String) : String :=
  refined_text

/-- Embedding of `tools.store_combined_page_summary`: returns its argument. -/
def store_combined_page_summary (combined_text : String) : String :=
  combined_text

/-- Leading part of `prompting.page_to_markdown_prompt_template`, up to the
`source_text` format slot. -/
def page_to_markdown_tmpl_a : String :=
  "\nYou are an AI assistant whose goal is to assist in creating detailed summaries of web pages.  You will\nbe provided with a structured representation of the content of a web page (listed below as source_text),\nand your task is to generate a human-readable, markdown representation of the content.\n\nWhile working towards the goal of creating the markdown representation, will ALWAYS follow the below\ngeneral guidelines:\n<guidelines>\n- Do not attempt to be friendly in your responses.  Be as direct and succint as possible.\n- Think through the problem, extract all data from the task and the previous conversations before creating any plan.\n- Never assume any parameter values while invoking a tool or function.\n- You may not ask clarifying questions; if you need more information, indicate that in your output and stop.\n</guidelines>\n\nAdditionally, you must ALWAYS follow these conversion_guidelines for the summaries you produce:\n<conversion_guidelines>\n- You will try to retain as much of the original detail as possible\n- You will try to retain the exact wording and structure of the source_text\n- You will not add any information that is not present in the source_text\n- You MUST produce output in a human-readable format following markdown conventions\n</conversion_guidelines>\n\nThe source text is <source_text>"

/-- Trailing part of `prompting.page_to_markdown_prompt_template` after the
`source_text` format slot. -/
def page_to_markdown_tmpl_b : String :=
  "</source_text>.\n"

/-- Embedding of `prompting.get_page_to_markdown_prompt_template`: a
`SystemMessage` holding the template with `source_text` substituted. -/
def get_page_to_markdown_prompt_template (source_text : String) : BaseMessage :=
  .system (page_to_markdown_tmpl_a ++ source_text ++ page_to_markdown_tmpl_b)

/-- Leading part of `prompting.page_refine_prompt_template`, up to the
`source_text` format slot. -/
def page_refine_tmpl_a : String :=
  "\nYou are an AI assistant whose goal is to refine technical documentation.  You will be provided with an existing\ndocument in a markdown format (listed below as source_text).  Your task is to restructure the content for clarity\nand readability.\n\nWhile working towards the goal of creating the refined document, will ALWAYS follow the below\ngeneral guidelines:\n<guidelines>\n- Think through the problem, extract all data from the task and the previous conversations before creating any plan.\n- Never assume any parameter values while invoking a tool or function.\n- You may not ask clarifying questions; if you need more information, indicate that in your output and stop.\n</guidelines>\n\nAdditionally, you must ALWAYS follow these refinement_guidelines for the changes you produce:\n<refinement_guidelines>\n- You MUST retain all details about technical content such as API specifications, configuration values, code snippets, etc\n- You MUST NOT add any information that is not present in the source_text\n- You MUST produce output in a human-readable format following markdown conventions\n- You should try to avoid using the exact same wording and structure as the source_text, unless it is required to retain technical detail\n</refinement_guidelines>\n\nThe source text is <source_text>"

/-- Trailing part of `prompting.page_refine_prompt_template`. -/
def page_refine_tmpl_b : String :=
  "</source_text>.\n"

/-- Embedding of `prompting.get_page_refine_prompt_template`.  The source
applies `json.dumps` to its argument before substitution; the chain code passes
strings, and the embedding takes the already-serialized string. -/
def get_page_refine_prompt_template (source_text : String) : BaseMessage :=
  .system (page_refine_tmpl_a ++ source_text ++ page_refine_tmpl_b)

/-- The fixed `quality_control_guidelines` block of
`prompting.page_qc_prompt_template` (the review criteria). -/
def page_qc_criteria : String :=
  "<quality_control_guidelines>\n- Retain the style and structure of the refined_text\n- If you find technical details present in the source_text but missing from the refined_text, add them back in.\n    By technical details, we mean API specifications, configuration values and options, code snippets, etc\n- Do not add any information that is not present in the source_text\n- Ensure the final output follows markdown conventions\n</quality_control_guidelines>"

/-- Part of `prompting.page_qc_prompt_template` before the
`quality_control_guidelines` block. -/
def page_qc_tmpl_a : String :=
  "\nYou are an AI assistant whose goal is to refine technical documentation as part of a multi-step process.  The previous\nstep in the process refined the documentation for clarity and readability.  You task is perform final quality control\non the refined document before it is ready for publishing.\n\nYou will be provided the original, unrefined document (listed below as source_text) and the refined document (listed\nbelow as refined_text).  Both should be in markdown format.  Your task is to carefully review the source_text and\nrefined_text and produce an updated version of the refined_text that meets the following quality_control_guidelines:\n\n"

/-- Part of `prompting.page_qc_prompt_template` between the guidelines block
and the `source_text` slot. -/
def page_qc_tmpl_b : String :=
  "\n\nWhile working towards the goal of producing a final, will ALWAYS follow the below general guidelines:\n<guidelines>\n- Think through the problem, extract all data from the task and the previous conversations before creating any plan.\n- Never assume any parameter values while invoking a tool or function.\n- You may not ask clarifying questions; if you need more information, indicate that in your output and stop.\n</guidelines>\n\nThe source text is <source_text>"

/-- Part of `prompting.page_qc_prompt_template` between the `source_text` and
`refined_text` slots. -/
def page_qc_tmpl_c : String :=
  "</source_text>.\n\nThe refined text is <refined_text>"

/-- Trailing part of `prompting.page_qc_prompt_template`. -/
def page_qc_tmpl_d : String :=
  "</refined_text>.\n"

/-- The full formatted QC prompt string, as produced by
`page_qc_prompt_template.format(source_text=..., refined_text=...)`. -/
def page_qc_prompt (source_text refined_text : String) : String :=
  page_qc_tmpl_a ++ page_qc_criteria ++ page_qc_tmpl_b ++ source_text
    ++ page_qc_tmpl_c ++ refined_text ++ page_qc_tmpl_d

/-- Embedding of `prompting.get_page_qc_prompt_template`. -/
def get_page_qc_prompt_template (source_text refined_text : String) : BaseMessage :=
  .system (page_qc_prompt source_text refined_text)

/-- A content fragment stored under a heading by
`scraping.extract_text_from_page`: one of the one-key dicts
`(p | pre | code : text)`, `(ul | ol : items)` or a table entry. -/
inductive Fragment where
  | par (text : String)
  | pre (text : String)
  | code (text : String)
  | ulist (items : List String)
  | olist (items : List String)
  | table (headers : List String) (rows : List (List String))
deriving DecidableEq, Repr

/-- An HTML element as returned by the `soup.find_all` walk in document order.
All of `h1`..`h6` behave identically in the source (the tag-name test only
checks the leading letter h),
so one `heading` constructor carries the heading text. -/
inductive Element where
  | heading (text : String)
  | par (text : String)
  | pre (text : String)
  | code (text : String)
  | ulist (items : List String)
  | olist (items : List String)
  | table (headers : List String) (rows : List (List String))
deriving DecidableEq, Repr

/-- Test for a heading element. -/
def isHeadingE : Element → Bool
  | .heading _ => true
  | _ => false

/-- The fragment an element turns into when appended; headings produce none. -/
def toFragment : Element → Option Fragment
  | .heading _ => none
  | .par t => some (.par t)
  | .pre t => some (.pre t)
  | .code t => some (.code t)
  | .ulist l => some (.ulist l)
  | .olist l => some (.olist l)
  | .table h r => some (.table h r)

/-- Embedding of the Python `entry.get` access with key `pre` and default
empty string on a fragment dict: the stored text for a `pre` entry and the
default empty string otherwise. -/
def getPre : Fragment → String
  | .pre t => t
  | _ => ""

/-- Embedding of the `entry.get` access with key `code` and default empty
string. -/
def getCode : Fragment → String
  | .code t => t
  | _ => ""

/-- Embedding of the `entry.get` access with key `ul` and default empty
list. -/
def getUl : Fragment → List String
  | .ulist l => l
  | _ => []

/-- Embedding of the `entry.get` access with key `ol` and default empty
list. -/
def getOl : Fragment → List String
  | .olist l => l
  | _ => []

/-- The page structure built by `extract_text_from_page`: a Python dict from
heading text to the list of fragments, embedded as an insertion-ordered
association list. -/
abbrev PageStructure : Type :=
  List (String × List Fragment)

/-- Keys of the dict, in insertion order. -/
def dictKeys (ps : PageStructure) : List String :=
  ps.map (·.1)

/-- Embedding of the dict read `page_structure[current_heading]`.  In every
reachable state the key is present (a heading inserts its key before any
append), so the default `[]` for a missing key is never observed. -/
def dictGet : PageStructure → String → List Fragment
  | [], _ => []
  | (k, v) :: rest, h => if k = h then v else dictGet rest h

/-- Embedding of the dict write `page_structure[text] = []`: replaces the
value in place when the key is present, appends a new entry otherwise. -/
def dictSet : PageStructure → String → List Fragment → PageStructure
  | [], k, v => [(k, v)]
  | (k0, v0) :: rest, k, v =>
    if k0 = k then (k, v) :: rest else (k0, v0) :: dictSet rest k v

/-- Embedding of `page_structure[current_heading].append(frag)`: extends the
value stored at the key, leaving other entries unchanged. -/
def dictAppendAt (ps : PageStructure) (h : String) (f : Fragment) : PageStructure :=
  ps.map (fun kv => if kv.1 = h then (kv.1, kv.2 ++ [f]) else kv)

/-- The duplicate test guarding an append in `extract_text_from_page`: for
`pre`/`code` elements the incoming text is compared against every existing
entry via the `entry.get` reads with keys `pre` and `code` (default empty
string); for `ul`/`ol` the item list is compared via the `entry.get` read
keyed by the tag name (default empty list).  Paragraphs and
tables are never skipped. -/
def appendWouldSkip (cur : List Fragment) : Element → Bool
  | .pre t => cur.any (fun e => t = getPre e || t = getCode e)
  | .code t => cur.any (fun e => t = getPre e || t = getCode e)
  | .ulist l => cur.any (fun e => l = getUl e)
  | .olist l => cur.any (fun e => l = getOl e)
  | _ => false

/-- One iteration of the element walk of `extract_text_from_page`, operating
on the pair (current_heading, page_structure).  The append branches are gated
by the Python truthiness test on `current_heading`: it fails both when no
heading has been seen (`None`) and when the current heading text is the empty
string, so a heading with empty text creates its (empty) entry but every
following fragment is dropped. -/
def processElement (st : Option String × PageStructure) (e : Element) :
    Option String × PageStructure :=
  match e with
  | .heading t => (some t, dictSet st.2 t [])
  | _ =>
    match st.1 with
    | none => st
    | some h =>
      if h = "" then st
      else if appendWouldSkip (dictGet st.2 h) e then st
      else
        match toFragment e with
        | none => st
        | some f => (st.1, dictAppendAt st.2 h f)

/-- Embedding of the parsing loop of `scraping.extract_text_from_page`, taking
the already-fetched element stream (the `soup.find_all` result in document
order) and producing the page structure. -/
def extract_text_from_page (doc : List Element) : PageStructure :=
  (doc.foldl processElement (none, [])).2

/-- Embedding of `scraping.ScrapingError`. -/
structure ScrapingError where
  msg : String
deriving DecidableEq, Repr

/-- Embedding of the full `extract_text_from_page`, with the network fetch and
HTML parse abstracted by an oracle `fetch` that either yields the page element
stream or fails like `requests` (which the source re-raises as
`ScrapingError`). -/
def extract_text_from_page_url (fetch : String → Except ScrapingError (List Element))
    (url : String) : Except ScrapingError PageStructure :=
  match fetch url with
  | .error e => .error e
  | .ok doc => .ok (extract_text_from_page doc)

/-- Embedding of `scraping.extract_structured_text_from_pages`.  The first
loop builds `text_from_pages`, substituting `{}` for a failing page, but that
list is dead: the return statement scrapes every URL again with no handler, so
any `ScrapingError` propagates. -/
def extract_structured_text_from_pages
    (fetch : String → Except ScrapingError (List Element))
    (url_list : List String) : Except ScrapingError (List PageStructure) :=
  let text_from_pages : List PageStructure :=
    url_list.map (fun url =>
      match extract_text_from_page_url fetch url with
      | .ok p => p
      | .error _ => [])
  url_list.mapM (extract_text_from_page_url fetch)

/-- Heading texts of an element stream, in document order. -/
def headingTexts (doc : List Element) : List String :=
  doc.filterMap (fun e =>
    match e with
    | .heading t => some t
    | _ => none)

/-- Splits an element stream into the content before the first heading and the
per-heading segments: `(lead, [(h1, els1), (h2, els2), ...])` where each
`elsI` is the run of non-heading elements following heading `hI`.  This is the
sectioning the specification describes. -/
def splitSections : List Element → List Element × List (String × List Element)
  | [] => ([], [])
  | .heading t :: rest => ([], (t, (splitSections rest).1) :: (splitSections rest).2)
  | e :: rest => (e :: (splitSections rest).1, (splitSections rest).2)

/-- The per-heading element segments of a document. -/
def sections (doc : List Element) : List (String × List Element) :=
  (splitSections doc).2

/-- The append step of `extract_text_from_page` restricted to one section
value: append the element as a fragment unless the duplicate test skips it. -/
def appendFrag (cur : List Fragment) (e : Element) : List Fragment :=
  if appendWouldSkip cur e then cur
  else
    match toFragment e with
    | none => cur
    | some f => cur ++ [f]

/-- Checks that processing the given elements against an accumulated fragment
list never triggers the duplicate skip. -/
def skipFreeFold (cur : List Fragment) : List Element → Bool
  | [] => true
  | e :: rest =>
    if appendWouldSkip cur e then false
    else skipFreeFold (appendFrag cur e) rest

/-- Checks that no duplicate skip fires anywhere on the page. -/
def noSkips (doc : List Element) : Bool :=
  (sections doc).all (fun s => skipFreeFold [] s.2)

/-- Definition following the specification text for claim C4: a mapping whose
keys are the texts of the page headings and whose value for each heading is
the ordered sequence, in document order, of the content fragments appearing
under that heading. -/
def specPageStructure (doc : List Element) : PageStructure :=
  (sections doc).map (fun s => (s.1, s.2.filterMap toFragment))

/-- Two fragments clash when they are two code-or-preformatted fragments with
the same text, or two equal lists of the same kind. -/
def clashB (f g : Fragment) : Bool :=
  (match f, g with
   | .pre a, .pre b => a = b
   | .pre a, .code b => a = b
   | .code a, .pre b => a = b
   | .code a, .code b => a = b
   | .ulist a, .ulist b => a = b
   | .olist a, .olist b => a = b
   | _, _ => false)

/-- No two fragments of the list clash (checked pairwise). -/
def noDupFragB : List Fragment → Bool
  | [] => true
  | f :: rest => rest.all (fun g => !clashB f g) && noDupFragB rest

/-- JSON serialization of a string (escaping elided: the inputs exercised here
contain no characters needing escapes). -/
def jsonString (s : String) : String :=
  "\"" ++ s ++ "\""

/-- JSON serialization of a list of strings, as `json.dumps` renders it. -/
def jsonStringList (l : List String) : String :=
  "[" ++ String.intercalate (", ") (l.map jsonString) ++ "]"

/-- JSON serialization of a list of lists of strings. -/
def jsonStringListList (l : List (List String)) : String :=
  "[" ++ String.intercalate (", ") (l.map jsonStringList) ++ "]"

/-- JSON serialization of one stored fragment dict. -/
def jsonFragment : Fragment → String
  | .par t => "\x7b" ++ jsonString ("p") ++ ": " ++ jsonString t ++ "\x7d"
  | .pre t => "\x7b" ++ jsonString ("pre") ++ ": " ++ jsonString t ++ "\x7d"
  | .code t => "\x7b" ++ jsonString ("code") ++ ": " ++ jsonString t ++ "\x7d"
  | .ulist l => "\x7b" ++ jsonString ("ul") ++ ": " ++ jsonStringList l ++ "\x7d"
  | .olist l => "\x7b" ++ jsonString ("ol") ++ ": " ++ jsonStringList l ++ "\x7d"
  | .table h r =>
    "\x7b" ++ jsonString ("table") ++ ": \x7b" ++ jsonString ("headers") ++ ": "
      ++ jsonStringList h ++ ", " ++ jsonString ("rows") ++ ": "
      ++ jsonStringListList r ++ "\x7d\x7d"

/-- JSON serialization of a fragment list. -/
def jsonFragmentList (l : List Fragment) : String :=
  "[" ++ String.intercalate (", ") (l.map jsonFragment) ++ "]"

/-- Embedding of `json.dumps({section_key: section_contents})` used by
`chain.perform_initial_conversion_batched` for one page section. -/
def jsonOfSection (k : String) (v : List Fragment) : String :=
  "\x7b" ++ jsonString k ++ ": " ++ jsonFragmentList v ++ "\x7d"

/-- Embedding of `chain.SummarizationPass`.  The `url` field is annotated
`str` in the source but `gen_summary.main` passes `None` for the combined
pass, so it is embedded as an `Option`. -/
structure SummarizationPass where
  url : Option String
  text : String
  turns : List BaseMessage
deriving DecidableEq, Repr

/-- Embedding of `chain.SummarizationPassBatch`. -/
structure SummarizationPassBatch where
  passes : List SummarizationPass
deriving DecidableEq, Repr

/-- Modelled from the spec: the class `ScrapedPage` is imported by `chain.py`
from `utilities.scraping` but is absent from the `scraping.py` under `src/`.
Per the glossary a scraped page is a mapping from heading text to an ordered
sequence of content fragments extracted from one URL; `chain.py` reads the
fields `url` and `content` from it. -/
structure ScrapedPage where
  url : String
  content : PageStructure
deriving DecidableEq

/-- Embedding of the grouping `batched_context[i:i + group_size]` performed by
the loop `for i in range(0, len(batched_context), group_size)` with
`group_size = 3`: consecutive slices of at most three sections. -/
def chunk3 : List α → List (List α)
  | [] => []
  | [a] => [[a]]
  | [a, b] => [[a, b]]
  | a :: b :: c :: rest => [a, b, c] :: chunk3 rest

/-- Embedding of `chain.perform_async_inference`: one `ainvoke` per context in
the group, gathered by `asyncio.gather`, which returns the results in the
order the coroutines were given. -/
def perform_async_inference (batched_context : List (List BaseMessage))
    (llm : List BaseMessage → BaseMessage) : List BaseMessage :=
  batched_context.map llm

/-- The user message of the conversion passes. -/
def conversionUserMsg : String :=
  "Please convert the source text into markdown and store it."

/-- The user message of the refinement passes. -/
def refineUserMsg : String :=
  "Please refine the source text and store it."

/-- The user message of the chain QC pass. -/
def qcUserMsg : String :=
  "Please perform a quality control pass on the refined doc and store it."

/-- Content of the `ToolMessage` acknowledging a conversion store. -/
def storedConvertedMsg : String :=
  "Stored the converted text"

/-- Content of the `ToolMessage` acknowledging a refinement store. -/
def storedRefinedMsg : String :=
  "Stored the refined text"

/-- The two-message inference context built for one page section by
`perform_initial_conversion_batched`. -/
def conversion_section_context (k : String) (v : List Fragment) : List BaseMessage :=
  [get_page_to_markdown_prompt_template (jsonOfSection k v), .human conversionUserMsg]

/-- The result-processing step shared by the conversion loops: read the last
tool call of the response (`IndexError` when there is none), run the no-op
store tool on its argument, and append the response and the `ToolMessage` to
the section turns. -/
def finishConversionSection (url : String) (turns : List BaseMessage)
    (resp : BaseMessage) : Except PipelineError SummarizationPass :=
  match resp.tool_calls.getLast? with
  | none => .error .indexError
  | some tc =>
    .ok ⟨some url, store_converted_page tc.args,
      turns ++ [resp, .tool ("StoreConvertedPage") storedConvertedMsg tc.id]⟩

/-- Embedding of `chain.perform_initial_conversion_batched`: build one context
per section of the page, run the LLM over the contexts in groups of three
(extending `response_batched` group by group), then pair each section with its
response by position. -/
def perform_initial_conversion_batched (llm : List BaseMessage → BaseMessage)
    (scraped_page : ScrapedPage) : Except PipelineError SummarizationPassBatch := do
  let batched_context :=
    scraped_page.content.map (fun kv => conversion_section_context kv.1 kv.2)
  let response_batched :=
    ((chunk3 batched_context).map (fun g => perform_async_inference g llm)).flatten
  let passes ←
    (batched_context.zip response_batched).mapM
      (fun p => finishConversionSection scraped_page.url p.1 p.2)
  pure ⟨passes⟩

/-- Definition following the claim's words for C3: process the sections one at
a time sequentially, invoking the provider on each section context in turn. -/
def perform_initial_conversion_sequential (llm : List BaseMessage → BaseMessage)
    (scraped_page : ScrapedPage) : Except PipelineError SummarizationPassBatch := do
  let passes ←
    scraped_page.content.mapM (fun kv =>
      let turns := conversion_section_context kv.1 kv.2
      finishConversionSection scraped_page.url turns (llm turns))
  pure ⟨passes⟩

/-- The turns `chain.perform_initial_refinement` sends to the LLM: the turns
accumulated in the incoming pass, followed by the refine prompt and the user
request. -/
def refinement_context (initial_state : SummarizationPass) : List BaseMessage :=
  initial_state.turns
    ++ [get_page_refine_prompt_template initial_state.text, .human refineUserMsg]

/-- Embedding of `chain.perform_initial_refinement`. -/
def perform_initial_refinement (llm : List BaseMessage → BaseMessage)
    (initial_state : SummarizationPass) : Except PipelineError SummarizationPass :=
  let refinement_turns := refinement_context initial_state
  let response := llm refinement_turns
  match response.tool_calls.getLast? with
  | none => .error .indexError
  | some tc =>
    .ok ⟨initial_state.url, store_refined_page_summary tc.args,
      refinement_turns
        ++ [response, .tool ("StoreRefinedPageSummary") storedRefinedMsg tc.id]⟩

/-- The turns `chain.perform_quality_control` sends to the LLM: a fresh list
holding only the QC prompt and the user request. -/
def qc_context (original_doc refined_doc : String) : List BaseMessage :=
  [get_page_qc_prompt_template original_doc refined_doc, .human qcUserMsg]

/-- Embedding of `chain.perform_quality_control`. -/
def perform_quality_control (llm : List BaseMessage → BaseMessage)
    (original_doc refined_doc : String) (url : Option String) :
    Except PipelineError SummarizationPass :=
  let qc_turns := qc_context original_doc refined_doc
  let response := llm qc_turns
  match response.tool_calls.getLast? with
  | none => .error .indexError
  | some tc =>
    .ok ⟨url, store_refined_page_summary tc.args,
      qc_turns ++ [response, .tool ("StoreRefinedPageSummary") storedRefinedMsg tc.id]⟩

/-- Python `str()` rendering of a string inside a dict repr. -/
def pyStrString (s : String) : String :=
  "\x27" ++ s ++ "\x27"

/-- Python `str()` rendering of a list of strings. -/
def pyStrStringList (l : List String) : String :=
  "[" ++ String.intercalate (", ") (l.map pyStrString) ++ "]"

/-- Python `str()` rendering of a list of lists of strings. -/
def pyStrStringListList (l : List (List String)) : String :=
  "[" ++ String.intercalate (", ") (l.map pyStrStringList) ++ "]"

/-- Python `str()` rendering of one stored fragment dict. -/
def pyStrFragment : Fragment → String
  | .par t => "\x7b" ++ pyStrString ("p") ++ ": " ++ pyStrString t ++ "\x7d"
  | .pre t => "\x7b" ++ pyStrString ("pre") ++ ": " ++ pyStrString t ++ "\x7d"
  | .code t => "\x7b" ++ pyStrString ("code") ++ ": " ++ pyStrString t ++ "\x7d"
  | .ulist l => "\x7b" ++ pyStrString ("ul") ++ ": " ++ pyStrStringList l ++ "\x7d"
  | .olist l => "\x7b" ++ pyStrString ("ol") ++ ": " ++ pyStrStringList l ++ "\x7d"
  | .table h r =>
    "\x7b" ++ pyStrString ("table") ++ ": \x7b" ++ pyStrString ("headers") ++ ": "
      ++ pyStrStringList h ++ ", " ++ pyStrString ("rows") ++ ": "
      ++ pyStrStringListList r ++ "\x7d\x7d"

/-- Python `str()` rendering of the raw page dict, as produced when
`graph.node_invoke_llm_convert_initial` formats `state["raw_page"]` into the
prompt template. -/
def pyStrOfPageStructure (ps : PageStructure) : String :=
  "\x7b" ++ String.intercalate (", ")
    (ps.map (fun kv => pyStrString kv.1 ++ ": ["
      ++ String.intercalate (", ") (kv.2.map pyStrFragment) ++ "]")) ++ "\x7d"

/-- Embedding of `graph.SummarizePageState`.  The TypedDict fields may be
absent in Python; every read in the source goes through `.get` with the
defaults embedded here (`{}`, `""`, `[]`, `False`), so an absent field is
identified with its default. -/
structure SummarizePageState where
  raw_page : PageStructure
  converted_page : String
  refined_page : String
  convert_turns : List BaseMessage
  refine_turns : List BaseMessage
  convert_complete : Bool
  refine_1st_complete : Bool
  refine_2nd_complete : Bool
deriving DecidableEq

/-- The update dict returned by `graph.node_validate_starting_state` on
success. -/
structure ValidateUpdate where
  convert_turns : List BaseMessage
  refine_turns : List BaseMessage
  convert_complete : Bool
  refine_1st_complete : Bool
  refine_2nd_complete : Bool
deriving DecidableEq

/-- Embedding of `graph.node_validate_starting_state`: raise
`InvalidStateError` when the raw page is missing/empty, when either turn list
is non-empty, or when any completion flag is set; otherwise return the update
resetting the turn lists and flags. -/
def node_validate_starting_state (s : SummarizePageState) :
    Except PipelineError ValidateUpdate :=
  if s.raw_page = [] then
    .error (.invalidState
      ("State \x27raw_page\x27 is missing.  You must provide the structured text to be summarized."))
  else if s.convert_turns ≠ [] ∨ s.refine_turns ≠ [] then
    .error (.invalidState ("State \x27convert_turns\x27 and \x27refine_turns\x27 must be empty."))
  else if s.convert_complete || s.refine_1st_complete || s.refine_2nd_complete then
    .error (.invalidState
      ("State \x27convert_complete\x27, \x27refine_1st_complete\x27, and \x27refine_2nd_complete\x27 must be False."))
  else
    .ok ⟨[], [], false, false, false⟩

/-- Application of the validation update to the state.  The turn-list
channels use the langgraph `add_messages` reducer, which appends the returned
messages (here none); the plain flag channels are overwritten. -/
def applyValidateUpdate (s : SummarizePageState) (u : ValidateUpdate) :
    SummarizePageState :=
  { s with
    convert_turns := s.convert_turns ++ u.convert_turns
    refine_turns := s.refine_turns ++ u.refine_turns
    convert_complete := u.convert_complete
    refine_1st_complete := u.refine_1st_complete
    refine_2nd_complete := u.refine_2nd_complete }

/-- The context `graph.node_invoke_llm_convert_initial` sends to the LLM: the
accumulated convert turns extended with the conversion prompt (over the raw
page rendered by `str.format`) and the user request. -/
def convert_initial_context (s : SummarizePageState) : List BaseMessage :=
  s.convert_turns
    ++ [get_page_to_markdown_prompt_template (pyStrOfPageStructure s.raw_page),
        .human conversionUserMsg]

/-- Intro sentence of the fixed review message of
`graph.node_invoke_llm_convert_2nd_pass`. -/
def convert_2nd_review_intro : String :=
  "I stored the converted text.  A copy of the converted text is pasted below.  I will review it carefully and ensure that the following criteria are met:"

/-- The fixed review criteria bullets of the convert second pass. -/
def convert_2nd_review_criteria : String :=
  "\n* The text follows markdown conventions\n* No important details were lost from the source text in the conversion"

/-- Part of the review message between the criteria and the pasted text. -/
def convert_2nd_review_outro : String :=
  "\n\nAfter performing this review, I will store the updated, converted text.\n\n<converted_text>"

/-- Leading part of the fixed review message, up to the pasted converted
text: the intro sentence, the criteria bullets, and the outro sentence. -/
def convert_2nd_review_a : String :=
  convert_2nd_review_intro ++ convert_2nd_review_criteria ++ convert_2nd_review_outro

/-- Trailing part of the review message of the convert second pass. -/
def convert_2nd_review_b : String :=
  "<\\converted_text>"

/-- The full review message of the convert second pass, containing the pasted
converted page. -/
def convert_2nd_review_msg (converted : String) : String :=
  convert_2nd_review_a ++ converted ++ convert_2nd_review_b

/-- The user message of the convert second pass. -/
def reviewConvertedUserMsg : String :=
  "Please review the converted text and store it."

/-- The `new_turns` list built by `node_invoke_llm_convert_2nd_pass`. -/
def convert_2nd_new_turns (s : SummarizePageState) : List BaseMessage :=
  [.ai (convert_2nd_review_msg s.converted_page) [], .human reviewConvertedUserMsg]

/-- The `all_turns` list `node_invoke_llm_convert_2nd_pass` sends to the LLM:
the accumulated convert turns followed by the new turns. -/
def convert_2nd_all_turns (s : SummarizePageState) : List BaseMessage :=
  s.convert_turns ++ convert_2nd_new_turns s

/-- Modelled from the spec: `get_page_summary_prompt_template` is imported by
`graph.py` from `summary_expert.prompting` but absent from the `prompting.py`
under `src/`.  Per the spec it is the prompt of the refinement stage, built
over the converted page text; its exact wording does not matter to any claim,
only that it is one system message carrying the source text. -/
def get_page_summary_prompt_template (source_text : String) : BaseMessage :=
  .system ("You are an AI assistant whose goal is to refine a converted web page into a polished summary.\n\nThe source text is <source_text>"
    ++ source_text ++ "</source_text>.\n")

/-- The context `graph.node_invoke_llm_refine_initial` sends to the LLM. -/
def refine_initial_context (s : SummarizePageState) : List BaseMessage :=
  s.refine_turns
    ++ [get_page_summary_prompt_template s.converted_page, .human refineUserMsg]

/-- Leading part of the fixed review message of
`graph.node_invoke_llm_refine_2nd_pass`. -/
def refine_2nd_review_a : String :=
  "I stored the refined text.  A copy of the refined text is pasted below.  I will review it carefully and ensure that the following criteria are met:\n* The text follows markdown conventions\n* No important details were lost from the source text in the refinement\n\nAfter performing this review, I will store the updated, refined text.\n\n<refined_text>"

/-- Trailing part of the review message of the refine second pass. -/
def refine_2nd_review_b : String :=
  "<\\refined_text>"

/-- The user message of the refine second pass. -/
def reviewRefinedUserMsg : String :=
  "Please review the refined text and store it."

/-- The `new_turns` list built by `node_invoke_llm_refine_2nd_pass`. -/
def refine_2nd_new_turns (s : SummarizePageState) : List BaseMessage :=
  [.ai (refine_2nd_review_a ++ s.refined_page ++ refine_2nd_review_b) [],
   .human reviewRefinedUserMsg]

/-- The `all_turns` list `node_invoke_llm_refine_2nd_pass` sends to the LLM. -/
def refine_2nd_all_turns (s : SummarizePageState) : List BaseMessage :=
  s.refine_turns ++ refine_2nd_new_turns s

/-- The nodes of the compiled summarize-page graph, plus the langgraph
virtual START and END vertices. -/
inductive GNode where
  | START
  | node_validate_starting_state
  | node_invoke_llm_convert_initial
  | node_invoke_llm_convert_2nd_pass
  | node_invoke_llm_refine_initial
  | node_invoke_llm_refine_2nd_pass
  | node_store_text_convert
  | node_store_text_refine
  | END
deriving DecidableEq, Repr

/-- Embedding of `graph.next_node`: the conditional-edge routing function,
reading only the three completion flags of the state. -/
def next_node (s : SummarizePageState) : GNode :=
  if !s.convert_complete then .node_invoke_llm_convert_2nd_pass
  else if s.convert_complete && !s.refine_1st_complete then .node_invoke_llm_refine_initial
  else if s.convert_complete && !s.refine_2nd_complete then .node_invoke_llm_refine_2nd_pass
  else .END

/-- Definition following the claim's words for C1: the successor computed from
the three boolean flags alone, with no other state input. -/
def next_node_flags (cc r1 r2 : Bool) : GNode :=
  if !cc then .node_invoke_llm_convert_2nd_pass
  else if cc && !r1 then .node_invoke_llm_refine_initial
  else if cc && !r2 then .node_invoke_llm_refine_2nd_pass
  else .END

/-- Executes one graph node on the state, applying its returned update through
the channel reducers (`add_messages` appends to the turn lists; the page and
flag channels are overwritten).  LLM calls go through the conversion oracle
`llmC` or the refinement oracle `llmR`. -/
def runNode (llmC llmR : List BaseMessage → BaseMessage) :
    GNode → SummarizePageState → Except PipelineError SummarizePageState
  | .START, s => .ok s
  | .node_validate_starting_state, s =>
    match node_validate_starting_state s with
    | .error e => .error e
    | .ok u => .ok (applyValidateUpdate s u)
  | .node_invoke_llm_convert_initial, s =>
    let ctx := convert_initial_context s
    .ok { s with convert_turns := ctx ++ [llmC ctx] }
  | .node_invoke_llm_convert_2nd_pass, s =>
    let all_turns := convert_2nd_all_turns s
    .ok { s with convert_turns := all_turns ++ [llmC all_turns], convert_complete := true }
  | .node_invoke_llm_refine_initial, s =>
    let ctx := refine_initial_context s
    .ok { s with refine_turns := ctx ++ [llmR ctx], refine_1st_complete := true }
  | .node_invoke_llm_refine_2nd_pass, s =>
    let all_turns := refine_2nd_all_turns s
    .ok { s with refine_turns := all_turns ++ [llmR all_turns], refine_2nd_complete := true }
  | .node_store_text_convert, s =>
    match s.convert_turns.getLast? with
    | none => .error .indexError
    | some last =>
      match last.tool_calls.getLast? with
      | none => .error .indexError
      | some tc =>
        if tc.name = "StoreConvertedPage" then
          .ok { s with
            converted_page := store_converted_page tc.args
            convert_turns := s.convert_turns
              ++ [.tool ("StoreConvertedPage") storedConvertedMsg tc.id] }
        else .error (.valueError ("Unexpected tool call name: " ++ tc.name))
  | .node_store_text_refine, s =>
    match s.refine_turns.getLast? with
    | none => .error .indexError
    | some last =>
      match last.tool_calls.getLast? with
      | none => .error .indexError
      | some tc =>
        if tc.name = "StoreRefinedPageSummary" then
          .ok { s with
            refined_page := store_refined_page_summary tc.args
            refine_turns := s.refine_turns
              ++ [.tool ("StoreRefinedPageSummary") storedRefinedMsg tc.id] }
        else .error (.valueError ("Unexpected tool call name: " ++ tc.name))
  | .END, s => .ok s

/-- The edges of the compiled graph: the static `add_edge` successors, and
`next_node` as the conditional edge out of the two store nodes (evaluated on
the state after the node's update). -/
def route : GNode → SummarizePageState → GNode
  | .START, _ => .node_validate_starting_state
  | .node_validate_starting_state, _ => .node_invoke_llm_convert_initial
  | .node_invoke_llm_convert_initial, _ => .node_store_text_convert
  | .node_invoke_llm_convert_2nd_pass, _ => .node_store_text_convert
  | .node_invoke_llm_refine_initial, _ => .node_store_text_refine
  | .node_invoke_llm_refine_2nd_pass, _ => .node_store_text_refine
  | .node_store_text_convert, s => next_node s
  | .node_store_text_refine, s => next_node s
  | .END, _ => .END

/-- Runs the graph from a node, returning the list of nodes executed, in
order, until END is reached (fuel-bounded; running out of fuel is an error,
so a successful result certifies that the run reached END). -/
def runVisits (llmC llmR : List BaseMessage → BaseMessage) :
    Nat → GNode → SummarizePageState → Except PipelineError (List GNode)
  | 0, g, _ => if g = .END then .ok [] else .error .outOfFuel
  | fuel + 1, g, s =>
    if g = .END then .ok []
    else
      match runNode llmC llmR g s with
      | .error e => .error e
      | .ok s2 =>
        match runVisits llmC llmR fuel (route g s2) s2 with
        | .error e => .error e
        | .ok rest => .ok (g :: rest)

/-- The user message of the combine pass. -/
def combineUserMsg : String :=
  "Please combine the page summaries and store them."

/-- Content of the `ToolMessage` acknowledging a combine store. -/
def storedCombinedMsg : String :=
  "Stored the combined text"

/-- Modelled from the spec: `perform_combined_summary` is imported by
`gen_summary.py` from `summary_expert.chain` but absent from the `chain.py`
under `src/`.  Per the spec it is one more summarization pass that combines
the multi-page summaries into one document: send the accumulated turns plus a
combine prompt built over the input text, and capture the text of the final
store tool call through the no-op `store_combined_page_summary`. -/
def perform_combined_summary (llm : List BaseMessage → BaseMessage)
    (initial_state : SummarizationPass) : Except PipelineError SummarizationPass :=
  let turns := initial_state.turns
    ++ [.system ("You are an AI assistant whose goal is to combine several refined page summaries into one document.\n\nThe source text is <source_text>"
          ++ initial_state.text ++ "</source_text>.\n"),
        .human combineUserMsg]
  let response := llm turns
  match response.tool_calls.getLast? with
  | none => .error .indexError
  | some tc =>
    .ok ⟨initial_state.url, store_combined_page_summary tc.args,
      turns ++ [response, .tool ("StoreCombinedPageSummary") storedCombinedMsg tc.id]⟩

/-- Embedding of the tail of `gen_summary.main` (after the per-page loop):
when more than one page result exists, combine the refined texts through
`perform_combined_summary` on a fresh pass whose text is the JSON dump of the
per-page texts and whose url is `None`; otherwise take the single page's
refined text.  The returned string is what `main` writes to the output file. -/
def main_final_summary (llm : List BaseMessage → BaseMessage)
    (page_results : List SummarizationPass) : Except PipelineError String :=
  if page_results.length > 1 then
    match perform_combined_summary llm
        ⟨none, jsonStringList (page_results.map (·.text)), []⟩ with
    | .error e => .error e
    | .ok combined_summary => .ok combined_summary.text
  else
    match page_results with
    | [] => .error .indexError
    | p :: _ => .ok p.text

/-- Embedding of `gen_summary.main` over the URL list.  The per-page pipeline
is abstracted by the oracle `refinePage` (modelled from the spec: `main` calls
`perform_initial_conversion`, `perform_conversion_qc`, `perform_refinement_qc`,
which are imported from `summary_expert.chain` but absent from the `chain.py`
under `src/`); `refinePage` maps each URL to the final refined pass of that
page, and the claim concerns only what `main` does with the per-page
results. -/
def main_write_output (llm : List BaseMessage → BaseMessage)
    (refinePage : String → SummarizationPass) (url_list : List String) :
    Except PipelineError String :=
  let page_results := url_list.map refinePage
  main_final_summary llm page_results

/-- Definition following the claim's words for C3 (result shape): the single
pass produced for one section when the response's final tool call exists —
url of the page, the no-op-stored tool-call argument as text, and the section
context followed by the response and the acknowledging tool message. -/
def passOfSection (llm : List BaseMessage → BaseMessage) (url : String)
    (kv : String × List Fragment) : SummarizationPass :=
  let turns := conversion_section_context kv.1 kv.2
  let resp := llm turns
  let tc := (resp.tool_calls.getLast?).getD ⟨"", "", ""⟩
  ⟨some url, store_converted_page tc.args,
    turns ++ [resp, .tool ("StoreConvertedPage") storedConvertedMsg tc.id]⟩

/-- The fresh pass `gen_summary.main` hands to `perform_combined_summary`:
url `None`, text the JSON dump of the per-page refined texts, no turns. -/
def combined_initial_state (page_results : List SummarizationPass) : SummarizationPass :=
  ⟨none, jsonStringList (page_results.map (·.text)), []⟩

/-- The node order claim C1 asserts for the compiled graph. -/
def linear_visit_order : List GNode :=
  [.node_validate_starting_state, .node_invoke_llm_convert_initial,
   .node_store_text_convert, .node_invoke_llm_convert_2nd_pass,
   .node_store_text_convert, .node_invoke_llm_refine_initial,
   .node_store_text_refine, .node_invoke_llm_refine_2nd_pass,
   .node_store_text_refine]

/-- Concrete conversion oracle for witnesses: always answers with a
`StoreConvertedPage` tool call. -/
def llmC0 : List BaseMessage → BaseMessage :=
  fun _ => .ai ("converted page body") [⟨"StoreConvertedPage", "converted text", "tc-c-1"⟩]

/-- Concrete refinement oracle for witnesses: always answers with a
`StoreRefinedPageSummary` tool call. -/
def llmR0 : List BaseMessage → BaseMessage :=
  fun _ => .ai ("refined page body") [⟨"StoreRefinedPageSummary", "refined text", "tc-r-1"⟩]

/-- Concrete combine oracle for witnesses: always answers with a
`StoreCombinedPageSummary` tool call. -/
def llmB0 : List BaseMessage → BaseMessage :=
  fun _ => .ai ("combined body") [⟨"StoreCombinedPageSummary", "combined text", "tc-b-1"⟩]

/-- Concrete valid starting state for the graph witnesses. -/
def state0 : SummarizePageState :=
  ⟨[("Heading", [.par ("body")])], "", "", [], [], false, false, false⟩

/-- Concrete scraped page with four sections (so the batching makes two
groups) for the C3 witness. -/
def page0 : ScrapedPage :=
  ⟨"https://example.com/a",
   [("A", [.par ("a")]), ("B", [.par ("b")]), ("C", [.par ("c")]), ("D", [.par ("d")])]⟩

/-- Concrete fetch oracle for witnesses: fails on the URL `bad`, succeeds on
everything else. -/
def fetch0 : String → Except ScrapingError (List Element) :=
  fun url => if url = "bad" then .error ⟨"Error occurred while trying to fetch bad"⟩
    else .ok [.heading ("H"), .par ("x")]

/-- Concrete URL list containing one failing URL for the C9 witness. -/
def urls0 : List String :=
  ["good", "bad"]

/-- Concrete element stream with a duplicated code block under one heading:
the duplicate-skip fires on the second copy. -/
def docDupCode : List Element :=
  [.heading ("H"), .code ("x"), .code ("x")]

/-- Concrete element stream with a leading paragraph before the first heading
and no duplicates, for the C4 and C10 witnesses. -/
def docPlain : List Element :=
  [.heading ("H"), .par ("x"), .code ("y"), .ulist (["i", "j"])]

/-- Concrete initial pass for the C5 counterexample. -/
def pass0 : SummarizationPass :=
  ⟨some ("https://example.com/a"), "original doc", []⟩

/-- Concrete per-page pipeline oracle for the C6 witness. -/
def refinePage0 : String → SummarizationPass :=
  fun url => ⟨some url, "refined " ++ url, []⟩

/-- Helper: the only success value `node_validate_starting_state` ever
returns is the all-empty, all-false update. -/
theorem validate_ok_eq (s : SummarizePageState)
    (h : isOkE (node_validate_starting_state s) = true) :
    node_validate_starting_state s = .ok ⟨[], [], false, false, false⟩ := by
  unfold node_validate_starting_state at h ⊢
  split_ifs at h ⊢ <;> simp_all [isOkE]

/-- Helper: a state accepted by the validation node has empty turn lists and
all completion flags false, and a non-empty raw page. -/
theorem validate_ok_fields (s : SummarizePageState)
    (h : isOkE (node_validate_starting_state s) = true) :
    s.raw_page ≠ [] ∧ s.convert_turns = [] ∧ s.refine_turns = []
      ∧ s.convert_complete = false ∧ s.refine_1st_complete = false
      ∧ s.refine_2nd_complete = false := by
  unfold node_validate_starting_state at h
  split_ifs at h with h1 h2 h3
  · simp [isOkE] at h
  · simp [isOkE] at h
  · simp [isOkE] at h
  · push_neg at h2
    simp only [Bool.or_eq_true, not_or, Bool.not_eq_true] at h3
    exact ⟨h1, h2.1, h2.2, h3.1.1, h3.1.2, h3.2⟩

/-- C2: for every string, each of the store tools `store_converted_page`,
`store_refined_page_summary` and `store_combined_page_summary` returns its
text argument unchanged; being pure functions of that argument, they perform
no storage action and no state change. -/
theorem c2_store_tools_are_identity (s : String) :
    store_converted_page s = s ∧ store_refined_page_summary s = s
      ∧ store_combined_page_summary s = s :=
  ⟨rfl, rfl, rfl⟩

/-- C8: `node_validate_starting_state` succeeds with the update resetting both
turn lists to empty and all three flags to false exactly when the raw page is
non-empty, both turn lists are empty and all three flags are false; it raises
`InvalidStateError` exactly when the raw page is missing/empty, or a turn
list is non-empty, or a flag is true. -/
theorem c8_validate_characterization (s : SummarizePageState) :
    (node_validate_starting_state s = .ok ⟨[], [], false, false, false⟩
      ↔ (s.raw_page ≠ [] ∧ s.convert_turns = [] ∧ s.refine_turns = []
          ∧ s.convert_complete = false ∧ s.refine_1st_complete = false
          ∧ s.refine_2nd_complete = false))
    ∧ (isOkE (node_validate_starting_state s) = false
      ↔ (s.raw_page = [] ∨ s.convert_turns ≠ [] ∨ s.refine_turns ≠ []
          ∨ s.convert_complete = true ∨ s.refine_1st_complete = true
          ∨ s.refine_2nd_complete = true)) := by
  unfold node_validate_starting_state
  split_ifs with h1 h2 h3
  · simp [isOkE, h1]
  · rcases h2 with h2 | h2 <;> simp [isOkE, h2]
  · simp only [Bool.or_eq_true] at h3
    rcases h3 with (h3 | h3) | h3 <;> simp [isOkE, h3]
  · push_neg at h2
    simp only [Bool.or_eq_true, not_or, Bool.not_eq_true] at h3
    simp [isOkE, h1, h2.1, h2.2, h3.1.1, h3.1.2, h3.2]

/-- C5 (amended): the graph's two second-pass nodes send the LLM the stage's
accumulated turns followed by the new turns of the current pass, and
`perform_initial_refinement` sends the incoming pass's accumulated turns
followed by its new turns; `perform_quality_control` instead sends a fresh
two-message context (the QC prompt and the user request), carrying the earlier
text inside the prompt rather than receiving the earlier turns. -/
theorem c5_amended_history_threading (s : SummarizePageState)
    (p : SummarizationPass) (o r : String) :
    (∃ t, s.convert_turns ++ t = convert_2nd_all_turns s)
    ∧ (∃ t, s.refine_turns ++ t = refine_2nd_all_turns s)
    ∧ (∃ t, p.turns ++ t = refinement_context p)
    ∧ qc_context o r = [get_page_qc_prompt_template o r, .human qcUserMsg]
    ∧ (qc_context o r).length = 2 :=
  ⟨⟨convert_2nd_new_turns s, rfl⟩, ⟨refine_2nd_new_turns s, rfl⟩,
   ⟨[get_page_refine_prompt_template p.text, .human refineUserMsg], rfl⟩, rfl, rfl⟩

/-- C5 (counterexample): the claim fails on `perform_quality_control`.  With a
concrete oracle and input, the initial refinement pass of the stage produces
four accumulated turns, while the subsequent QC invocation sends the LLM a
fresh two-message context, so the turns produced by the earlier pass of the
stage are not a prefix of (and cannot all be among) what the QC call is
sent. -/
theorem c5_counterexample :
    ∃ p, perform_initial_refinement llmR0 pass0 = .ok p
      ∧ p.turns.length = 4
      ∧ ¬ ∃ t, p.turns ++ t = qc_context pass0.text p.text := by
  refine ⟨_, rfl, rfl, ?_⟩
  rintro ⟨t, ht⟩
  have hlen := congrArg List.length ht
  simp only [pass0, refinement_context, qc_context, List.length_append,
    List.length_cons, List.length_nil] at hlen
  omega

/-- Helper: `mapM` over `Except` succeeds exactly when the function succeeds
on every element. -/
theorem mapM_except_isOk_all {α β ε : Type} (f : α → Except ε β) (l : List α) :
    isOkE (l.mapM f) = l.all (fun a => isOkE (f a)) := by
  induction l with
  | nil => rfl
  | cons a t ih =>
    rw [List.mapM_cons]
    cases hfa : f a with
    | error e =>
      show (false : Bool) = (isOkE (f a) && t.all (fun x => isOkE (f x)))
      rw [hfa]
      rfl
    | ok b =>
      cases hmt : t.mapM f with
      | error e2 =>
        have hall : t.all (fun x => isOkE (f x)) = false := by rw [← ih, hmt]; rfl
        show (false : Bool) = (isOkE (f a) && t.all (fun x => isOkE (f x)))
        rw [hall, Bool.and_false]
      | ok bs =>
        have hall : t.all (fun x => isOkE (f x)) = true := by rw [← ih, hmt]; rfl
        show (true : Bool) = (isOkE (f a) && t.all (fun x => isOkE (f x)))
        rw [hall, hfa, Bool.and_true]
        rfl

/-- C9: when scraping any URL of the list fails, the whole of
`extract_structured_text_from_pages` fails with the `ScrapingError` instead of
returning a list with an empty mapping substituted for the failing page: the
per-URL exception handler populates only the dead `text_from_pages` list,
because the return expression re-scrapes every URL unguarded (the call
succeeds exactly when every per-URL scrape succeeds). -/
theorem c9_scraping_error_propagates
    (fetch : String → Except ScrapingError (List Element)) (url_list : List String)
    (h : ∃ u, u ∈ url_list ∧ isOkE (extract_text_from_page_url fetch u) = false) :
    isOkE (extract_structured_text_from_pages fetch url_list) = false
    ∧ isOkE (extract_structured_text_from_pages fetch url_list)
        = url_list.all (fun u => isOkE (extract_text_from_page_url fetch u)) := by
  have hall : isOkE (extract_structured_text_from_pages fetch url_list)
      = url_list.all (fun u => isOkE (extract_text_from_page_url fetch u)) :=
    mapM_except_isOk_all (extract_text_from_page_url fetch) url_list
  obtain ⟨u, hmem, hu⟩ := h
  refine ⟨?_, hall⟩
  rw [hall]
  exact List.all_eq_false.mpr ⟨u, hmem, by simp [hu]⟩

/-- C9 (witness): concrete fetch oracle failing on the second URL. -/
theorem c9_witness :
    isOkE (extract_structured_text_from_pages fetch0 urls0) = false
    ∧ isOkE (extract_structured_text_from_pages fetch0 urls0)
        = urls0.all (fun u => isOkE (extract_text_from_page_url fetch0 u)) :=
  c9_scraping_error_propagates fetch0 urls0
    ⟨"bad", by decide, by decide⟩

/-- Helper: the groups-of-three slicing partitions the list: flattening the
chunks gives back the original list. -/
theorem chunk3_flatten {α : Type} : ∀ l : List α, (chunk3 l).flatten = l
  | [] => by simp [chunk3]
  | [a] => by simp [chunk3]
  | [a, b] => by simp [chunk3]
  | a :: b :: c :: rest => by
    simp [chunk3, chunk3_flatten rest]

/-- Helper: mapping a function over each chunk and flattening equals mapping
over the original list. -/
theorem chunk3_map_flatten {α β : Type} (f : α → β) :
    ∀ l : List α, ((chunk3 l).map (List.map f)).flatten = l.map f
  | [] => by simp [chunk3]
  | [a] => by simp [chunk3]
  | [a, b] => by simp [chunk3]
  | a :: b :: c :: rest => by
    simp [chunk3, chunk3_map_flatten f rest]

/-- Helper: every chunk has length at most three. -/
theorem chunk3_length_le {α : Type} :
    ∀ (l : List α) (c : List α), c ∈ chunk3 l → c.length ≤ 3
  | [], c, hc => by simp [chunk3] at hc
  | [a], c, hc => by
    simp [chunk3] at hc
    simp [hc]
  | [a, b], c, hc => by
    simp [chunk3] at hc
    simp [hc]
  | a :: b :: c0 :: rest, c, hc => by
    simp only [chunk3, List.mem_cons] at hc
    rcases hc with rfl | hc
    · simp
    · exact chunk3_length_le rest c hc

/-- Helper: running a step over a list zipped with its image under a pure
function equals running the composed step over the original list. -/
theorem mapM_zip_map_eq {α β γ δ : Type} {ε : Type} (f : α → β) (g : β → γ)
    (step : β → γ → Except ε δ) :
    ∀ l : List α, (((l.map f).zip ((l.map f).map g)).mapM (fun p => step p.1 p.2))
      = l.mapM (fun x => step (f x) (g (f x)))
  | [] => rfl
  | a :: t => by
    simp only [List.map_cons, List.zip_cons_cons, List.mapM_cons,
      mapM_zip_map_eq f g step t]

/-- Helper: a `mapM` whose function succeeds pointwise computes the map of
the pointwise results. -/
theorem mapM_except_eq_ok_map {α β : Type} {ε : Type} (f : α → Except ε β) (g : α → β) :
    ∀ l : List α, (∀ a ∈ l, f a = .ok (g a)) → l.mapM f = .ok (l.map g)
  | [], _ => rfl
  | a :: t, h => by
    simp only [List.mapM_cons, h a (List.mem_cons_self a t),
      mapM_except_eq_ok_map f g t (fun x hx => h x (List.mem_cons_of_mem a hx)),
      List.map_cons]
    rfl

/-- C3: the batched initial conversion partitions the page's sections into
consecutive groups of at most three, invokes the provider's async call once
per section within each group, and produces exactly one pass per section in
section order — the same result, pass for pass, as processing the sections
one at a time sequentially. -/
theorem c3_batched_equals_sequential (llm : List BaseMessage → BaseMessage)
    (page : ScrapedPage)
    (h : ∀ kv ∈ page.content,
      ((llm (conversion_section_context kv.1 kv.2)).tool_calls.getLast?).isSome = true) :
    perform_initial_conversion_batched llm page
        = perform_initial_conversion_sequential llm page
    ∧ (chunk3 (page.content.map (fun kv => conversion_section_context kv.1 kv.2))).flatten
        = page.content.map (fun kv => conversion_section_context kv.1 kv.2)
    ∧ (chunk3 (page.content.map (fun kv => conversion_section_context kv.1 kv.2))).all
        (fun c => decide (c.length ≤ 3)) = true
    ∧ perform_initial_conversion_batched llm page
        = .ok ⟨page.content.map (passOfSection llm page.url)⟩ := by
  have heq : perform_initial_conversion_batched llm page
      = perform_initial_conversion_sequential llm page := by
    simp only [perform_initial_conversion_batched, perform_initial_conversion_sequential]
    have hflat : ((chunk3 (page.content.map (fun kv => conversion_section_context kv.1 kv.2))).map
        (fun g => perform_async_inference g llm)).flatten
        = (page.content.map (fun kv => conversion_section_context kv.1 kv.2)).map llm := by
      simpa [perform_async_inference] using
        chunk3_map_flatten llm (page.content.map (fun kv => conversion_section_context kv.1 kv.2))
    rw [hflat, mapM_zip_map_eq (fun kv => conversion_section_context kv.1 kv.2) llm
      (finishConversionSection page.url) page.content]
  have hok : perform_initial_conversion_sequential llm page
      = .ok ⟨page.content.map (passOfSection llm page.url)⟩ := by
    simp only [perform_initial_conversion_sequential]
    have hstep : ∀ kv ∈ page.content,
        finishConversionSection page.url (conversion_section_context kv.1 kv.2)
          (llm (conversion_section_context kv.1 kv.2))
        = .ok (passOfSection llm page.url kv) := by
      intro kv hkv
      obtain ⟨tc, htc⟩ := Option.isSome_iff_exists.mp (h kv hkv)
      simp [finishConversionSection, htc, passOfSection]
    rw [mapM_except_eq_ok_map _ (passOfSection llm page.url) page.content hstep]
    rfl
  refine ⟨heq, chunk3_flatten _, ?_, heq.trans hok⟩
  exact List.all_eq_true.mpr (fun c hc => decide_eq_true (chunk3_length_le _ c hc))

/-- C3 (witness): concrete four-section page and constant conversion
oracle. -/
theorem c3_witness :
    perform_initial_conversion_batched llmC0 page0
        = perform_initial_conversion_sequential llmC0 page0
    ∧ (chunk3 (page0.content.map (fun kv => conversion_section_context kv.1 kv.2))).flatten
        = page0.content.map (fun kv => conversion_section_context kv.1 kv.2)
    ∧ (chunk3 (page0.content.map (fun kv => conversion_section_context kv.1 kv.2))).all
        (fun c => decide (c.length ≤ 3)) = true
    ∧ perform_initial_conversion_batched llmC0 page0
        = .ok ⟨page0.content.map (passOfSection llmC0 page0.url)⟩ :=
  c3_batched_equals_sequential llmC0 page0 (fun kv _ => rfl)

/-- C7: the QC prompt of `perform_quality_control` contains the fixed
`quality_control_guidelines` criteria followed by both the original and the
refined document; the pass succeeds with its result text taken from the
argument of the model's final store tool call; and the graph's convert
second pass likewise pastes the previously produced converted text between
its fixed criteria bullets and review instructions. -/
theorem c7_qc_prompt_and_result (llm : List BaseMessage → BaseMessage)
    (o r c : String) (u : Option String) (tc : ToolCall)
    (h : (llm (qc_context o r)).tool_calls.getLast? = some tc) :
    (∃ x y z, page_qc_prompt o r = x ++ o ++ y ++ r ++ z
      ∧ ∃ w v, x = w ++ page_qc_criteria ++ v)
    ∧ (∃ turns, perform_quality_control llm o r u
        = .ok ⟨u, store_refined_page_summary tc.args, turns⟩)
    ∧ (∃ x y, convert_2nd_review_msg c = x ++ c ++ y
      ∧ ∃ w v, x = w ++ convert_2nd_review_criteria ++ v) := by
  refine ⟨⟨page_qc_tmpl_a ++ page_qc_criteria ++ page_qc_tmpl_b, page_qc_tmpl_c,
    page_qc_tmpl_d, ?_, page_qc_tmpl_a, page_qc_tmpl_b, rfl⟩, ?_, ?_⟩
  · simp [page_qc_prompt, String.append_assoc]
  · exact ⟨qc_context o r
      ++ [llm (qc_context o r), .tool ("StoreRefinedPageSummary") storedRefinedMsg tc.id], by
      simp only [perform_quality_control]
      rw [h]⟩
  · exact ⟨convert_2nd_review_a, convert_2nd_review_b, rfl,
      convert_2nd_review_intro, convert_2nd_review_outro, by
        simp [convert_2nd_review_a, String.append_assoc]⟩

/-- C7 (witness): concrete oracle and documents. -/
theorem c7_witness :
    (∃ x y z, page_qc_prompt ("orig doc") ("refined doc") = x ++ "orig doc" ++ y ++ "refined doc" ++ z
      ∧ ∃ w v, x = w ++ page_qc_criteria ++ v)
    ∧ (∃ turns, perform_quality_control llmR0 ("orig doc") ("refined doc") (some ("https://example.com/a"))
        = .ok ⟨some ("https://example.com/a"),
            store_refined_page_summary (ToolCall.mk ("StoreRefinedPageSummary") ("refined text") ("tc-r-1")).args,
            turns⟩)
    ∧ (∃ x y, convert_2nd_review_msg ("converted doc") = x ++ "converted doc" ++ y
      ∧ ∃ w v, x = w ++ convert_2nd_review_criteria ++ v) :=
  c7_qc_prompt_and_result llmR0 ("orig doc") ("refined doc") ("converted doc")
    (some ("https://example.com/a")) ⟨"StoreRefinedPageSummary", "refined text", "tc-r-1"⟩ rfl

/-- C6: with exactly one URL, `main` writes that page's refined text
unchanged; with more than one URL, it writes the text of the combined-summary
pass run over the JSON dump of the per-page refined texts. -/
theorem c6_combine_or_single (llm : List BaseMessage → BaseMessage)
    (refinePage : String → SummarizationPass) (u : String) (us : List String)
    (hlen : us.length > 1) :
    main_write_output llm refinePage [u] = .ok ((refinePage u).text)
    ∧ main_write_output llm refinePage us
        = Except.map (fun combined => combined.text)
            (perform_combined_summary llm (combined_initial_state (us.map refinePage))) := by
  constructor
  · simp [main_write_output, main_final_summary]
  · simp only [main_write_output, main_final_summary, combined_initial_state]
    rw [if_pos (by simpa using hlen)]
    cases hc : perform_combined_summary llm
        ⟨none, jsonStringList ((us.map refinePage).map (·.text)), []⟩ <;>
      simp [hc, Except.map]

/-- C6 (witness): one URL and two URLs with concrete oracles. -/
theorem c6_witness :
    main_write_output llmB0 refinePage0 [("one")] = .ok ((refinePage0 ("one")).text)
    ∧ main_write_output llmB0 refinePage0 (["a", "b"])
        = Except.map (fun combined => combined.text)
            (perform_combined_summary llmB0
              (combined_initial_state ((["a", "b"]).map refinePage0))) :=
  c6_combine_or_single llmB0 refinePage0 ("one") (["a", "b"]) (by decide)

/-- Helper: one successful step of the graph run prepends the executed node to
the visit list of the rest of the run. -/
theorem runVisits_step (llmC llmR : List BaseMessage → BaseMessage) (fuel : Nat)
    (g : GNode) (s s2 : SummarizePageState) (rest : List GNode)
    (hg : ¬ g = .END)
    (h1 : runNode llmC llmR g s = .ok s2)
    (h2 : runVisits llmC llmR fuel (route g s2) s2 = .ok rest) :
    runVisits llmC llmR (fuel + 1) g s = .ok (g :: rest) := by
  simp only [runVisits]
  rw [if_neg hg, h1]
  show (match runVisits llmC llmR fuel (route g s2) s2 with
    | .error e => (.error e : Except PipelineError (List GNode))
    | .ok rest => .ok (g :: rest)) = .ok (g :: rest)
  rw [h2]

/-- C1: for every start state accepted by the validation node and every pair
of oracles whose responses end in the expected store tool call, the compiled
graph executes its nodes in the one fixed linear order — validate,
convert-initial, store-convert, convert-2nd-pass, store-convert,
refine-initial, store-refine, refine-2nd-pass, store-refine — reaching END
within the fuel bound, with each LLM node executed exactly once and with
`next_node` computing the successor from the three boolean flags alone. -/
theorem c1_graph_linear_order (llmC llmR : List BaseMessage → BaseMessage)
    (s : SummarizePageState)
    (hC : ∀ ctx, ∃ tc, (llmC ctx).tool_calls.getLast? = some tc
      ∧ tc.name = "StoreConvertedPage")
    (hR : ∀ ctx, ∃ tc, (llmR ctx).tool_calls.getLast? = some tc
      ∧ tc.name = "StoreRefinedPageSummary")
    (hok : isOkE (node_validate_starting_state s) = true) :
    runVisits llmC llmR 20 .node_validate_starting_state s = .ok linear_visit_order
    ∧ Except.map (fun v => (v.count GNode.node_invoke_llm_convert_initial,
        v.count GNode.node_invoke_llm_convert_2nd_pass,
        v.count GNode.node_invoke_llm_refine_initial,
        v.count GNode.node_invoke_llm_refine_2nd_pass))
        (runVisits llmC llmR 20 .node_validate_starting_state s) = .ok (1, 1, 1, 1)
    ∧ next_node s = next_node_flags s.convert_complete s.refine_1st_complete
        s.refine_2nd_complete := by
  obtain ⟨hraw, hct, hrt, hcc, hr1, hr2⟩ := validate_ok_fields s hok
  have hval := validate_ok_eq s hok
  obtain ⟨rp, cp, fp, ct, rt, cc, r1, r2⟩ := s
  dsimp only at hct hrt hcc hr1 hr2
  subst hct hrt hcc hr1 hr2
  have hmain : runVisits llmC llmR 20 .node_validate_starting_state
      ⟨rp, cp, fp, [], [], false, false, false⟩ = .ok linear_visit_order := by
    set s1 : SummarizePageState := (⟨rp, cp, fp, [], [], false, false, false⟩ : SummarizePageState)
    set ctx1 := convert_initial_context s1
    obtain ⟨tc1, htc1, hn1⟩ := hC ctx1
    set s2 : SummarizePageState := ({ s1 with convert_turns := ctx1 ++ [llmC ctx1] })
    set s3 : SummarizePageState := ({ s2 with
      converted_page := tc1.args
      convert_turns := s2.convert_turns
        ++ [.tool ("StoreConvertedPage") storedConvertedMsg tc1.id] })
    set all2 := convert_2nd_all_turns s3
    obtain ⟨tc2, htc2, hn2⟩ := hC all2
    set s4 : SummarizePageState := ({ s3 with
      convert_turns := all2 ++ [llmC all2]
      convert_complete := true })
    set s5 : SummarizePageState := ({ s4 with
      converted_page := tc2.args
      convert_turns := s4.convert_turns
        ++ [.tool ("StoreConvertedPage") storedConvertedMsg tc2.id] })
    set rctx := refine_initial_context s5
    obtain ⟨tc3, htc3, hn3⟩ := hR rctx
    set s6 : SummarizePageState := ({ s5 with
      refine_turns := rctx ++ [llmR rctx]
      refine_1st_complete := true })
    set s7 : SummarizePageState := ({ s6 with
      refined_page := tc3.args
      refine_turns := s6.refine_turns
        ++ [.tool ("StoreRefinedPageSummary") storedRefinedMsg tc3.id] })
    set rall := refine_2nd_all_turns s7
    obtain ⟨tc4, htc4, hn4⟩ := hR rall
    set s8 : SummarizePageState := ({ s7 with
      refine_turns := rall ++ [llmR rall]
      refine_2nd_complete := true })
    set s9 : SummarizePageState := ({ s8 with
      refined_page := tc4.args
      refine_turns := s8.refine_turns
        ++ [.tool ("StoreRefinedPageSummary") storedRefinedMsg tc4.id] })
    have e1 : runNode llmC llmR .node_validate_starting_state s1 = .ok s1 := by
      simp only [runNode]
      rw [hval]
      rfl
    have e2 : runNode llmC llmR .node_invoke_llm_convert_initial s1 = .ok s2 := rfl
    have e3 : runNode llmC llmR .node_store_text_convert s2 = .ok s3 := by
      simp only [runNode,
        show s2.convert_turns.getLast? = some (llmC ctx1) from rfl, htc1, hn1]
      rfl
    have e4 : runNode llmC llmR .node_invoke_llm_convert_2nd_pass s3 = .ok s4 := rfl
    have e5 : runNode llmC llmR .node_store_text_convert s4 = .ok s5 := by
      simp only [runNode,
        show s4.convert_turns.getLast? = some (llmC all2) from rfl, htc2, hn2]
      rfl
    have e6 : runNode llmC llmR .node_invoke_llm_refine_initial s5 = .ok s6 := rfl
    have e7 : runNode llmC llmR .node_store_text_refine s6 = .ok s7 := by
      simp only [runNode,
        show s6.refine_turns.getLast? = some (llmR rctx) from rfl, htc3, hn3]
      rfl
    have e8 : runNode llmC llmR .node_invoke_llm_refine_2nd_pass s7 = .ok s8 := rfl
    have e9 : runNode llmC llmR .node_store_text_refine s8 = .ok s9 := by
      simp only [runNode,
        show s8.refine_turns.getLast? = some (llmR rall) from rfl, htc4, hn4]
      rfl
    have R9 : runVisits llmC llmR 11 (route .node_store_text_refine s9) s9 = .ok [] := rfl
    have R8 := runVisits_step llmC llmR 11 .node_store_text_refine s8 s9 _ (by decide) e9 R9
    have R7 := runVisits_step llmC llmR 12 .node_invoke_llm_refine_2nd_pass s7 s8 _
      (by decide) e8 R8
    have R6 := runVisits_step llmC llmR 13 .node_store_text_refine s6 s7 _ (by decide) e7 R7
    have R5 := runVisits_step llmC llmR 14 .node_invoke_llm_refine_initial s5 s6 _
      (by decide) e6 R6
    have R4 := runVisits_step llmC llmR 15 .node_store_text_convert s4 s5 _ (by decide) e5 R5
    have R3 := runVisits_step llmC llmR 16 .node_invoke_llm_convert_2nd_pass s3 s4 _
      (by decide) e4 R4
    have R2 := runVisits_step llmC llmR 17 .node_store_text_convert s2 s3 _ (by decide) e3 R3
    have R1 := runVisits_step llmC llmR 18 .node_invoke_llm_convert_initial s1 s2 _
      (by decide) e2 R2
    exact runVisits_step llmC llmR 19 .node_validate_starting_state s1 s1 _
      (by decide) e1 R1
  exact ⟨hmain, by rw [hmain]; rfl, rfl⟩

/-- C1 (witness): concrete valid start state and constant store-tool
oracles. -/
theorem c1_witness :
    runVisits llmC0 llmR0 20 .node_validate_starting_state state0 = .ok linear_visit_order
    ∧ Except.map (fun v => (v.count GNode.node_invoke_llm_convert_initial,
        v.count GNode.node_invoke_llm_convert_2nd_pass,
        v.count GNode.node_invoke_llm_refine_initial,
        v.count GNode.node_invoke_llm_refine_2nd_pass))
        (runVisits llmC0 llmR0 20 .node_validate_starting_state state0) = .ok (1, 1, 1, 1)
    ∧ next_node state0 = next_node_flags state0.convert_complete
        state0.refine_1st_complete state0.refine_2nd_complete :=
  c1_graph_linear_order llmC0 llmR0 state0
    (fun _ => ⟨⟨"StoreConvertedPage", "converted text", "tc-c-1"⟩, rfl, rfl⟩)
    (fun _ => ⟨⟨"StoreRefinedPageSummary", "refined text", "tc-r-1"⟩, rfl, rfl⟩)
    rfl

/-- Helper: reading a freshly appended key. -/
theorem dictGet_fresh (ps : PageStructure) (h : String) (v : List Fragment)
    (hmem : h ∉ dictKeys ps) : dictGet (ps ++ [(h, v)]) h = v := by
  induction ps with
  | nil => simp [dictGet]
  | cons kv rest ih =>
    obtain ⟨k, w⟩ := kv
    simp only [dictKeys, List.map_cons, List.mem_cons, not_or] at hmem
    simp only [List.cons_append, dictGet, if_neg (Ne.symm hmem.1)]
    exact ih (by simpa [dictKeys] using hmem.2)

/-- Helper: setting an absent key appends a new entry. -/
theorem dictSet_fresh (ps : PageStructure) (k : String) (v : List Fragment)
    (hmem : k ∉ dictKeys ps) : dictSet ps k v = ps ++ [(k, v)] := by
  induction ps with
  | nil => rfl
  | cons kv rest ih =>
    obtain ⟨k0, w⟩ := kv
    simp only [dictKeys, List.map_cons, List.mem_cons, not_or] at hmem
    simp only [dictSet, if_neg (Ne.symm hmem.1), List.cons_append]
    rw [ih (by simpa [dictKeys] using hmem.2)]

/-- Helper: appending at an absent key changes nothing. -/
theorem dictAppendAt_absent (ps : PageStructure) (h : String) (f : Fragment)
    (hmem : h ∉ dictKeys ps) : dictAppendAt ps h f = ps := by
  induction ps with
  | nil => rfl
  | cons kv rest ih =>
    obtain ⟨k0, w⟩ := kv
    simp only [dictKeys, List.map_cons, List.mem_cons, not_or] at hmem
    simp only [dictAppendAt, List.map_cons]
    rw [if_neg]
    · have := ih (by simpa [dictKeys] using hmem.2)
      simp only [dictAppendAt] at this
      rw [this]
    · exact Ne.symm hmem.1

/-- Helper: appending at a freshly appended key extends exactly that entry. -/
theorem dictAppendAt_fresh (ps : PageStructure) (h : String) (v : List Fragment)
    (f : Fragment) (hmem : h ∉ dictKeys ps) :
    dictAppendAt (ps ++ [(h, v)]) h f = ps ++ [(h, v ++ [f])] := by
  unfold dictAppendAt
  rw [List.map_append]
  have h1 : ps.map (fun kv => if kv.1 = h then (kv.1, kv.2 ++ [f]) else kv) = ps := by
    have := dictAppendAt_absent ps h f hmem
    simpa [dictAppendAt] using this
  rw [h1]
  simp

/-- Helper: a non-heading element is a no-op when no heading has been seen. -/
theorem processElement_none (e : Element) (he : isHeadingE e = false)
    (ps : PageStructure) : processElement (none, ps) e = (none, ps) := by
  cases e <;> simp_all [processElement, isHeadingE]

/-- Helper: a run of non-heading elements is a no-op when no heading has been
seen. -/
theorem foldl_processElement_none (l : List Element)
    (hl : ∀ e ∈ l, isHeadingE e = false) (ps : PageStructure) :
    l.foldl processElement (none, ps) = (none, ps) := by
  induction l with
  | nil => rfl
  | cons e rest ih =>
    rw [List.foldl_cons, processElement_none e (hl e (List.mem_cons_self e rest)) ps]
    exact ih (fun x hx => hl x (List.mem_cons_of_mem e hx))

/-- Helper: on a section in progress, a non-heading element appends its
fragment (subject to the duplicate skip) to the current heading's entry. -/
theorem processElement_extend (e : Element) (he : isHeadingE e = false)
    (h : String) (ps : PageStructure) (v : List Fragment)
    (hmem : h ∉ dictKeys ps) (hne : h ≠ "") :
    processElement (some h, ps ++ [(h, v)]) e
      = (some h, ps ++ [(h, appendFrag v e)]) := by
  cases e with
  | heading t => simp [isHeadingE] at he
  | par t =>
    simp [processElement, appendFrag, appendWouldSkip, toFragment, hne,
      dictGet_fresh ps h v hmem, dictAppendAt_fresh ps h v _ hmem]
  | pre t =>
    cases hb : appendWouldSkip v (.pre t) <;>
      simp [processElement, appendFrag, toFragment, hb, hne,
        dictGet_fresh ps h v hmem, dictAppendAt_fresh ps h v _ hmem]
  | code t =>
    cases hb : appendWouldSkip v (.code t) <;>
      simp [processElement, appendFrag, toFragment, hb, hne,
        dictGet_fresh ps h v hmem, dictAppendAt_fresh ps h v _ hmem]
  | ulist l =>
    cases hb : appendWouldSkip v (.ulist l) <;>
      simp [processElement, appendFrag, toFragment, hb, hne,
        dictGet_fresh ps h v hmem, dictAppendAt_fresh ps h v _ hmem]
  | olist l =>
    cases hb : appendWouldSkip v (.olist l) <;>
      simp [processElement, appendFrag, toFragment, hb, hne,
        dictGet_fresh ps h v hmem, dictAppendAt_fresh ps h v _ hmem]
  | table hd rws =>
    simp [processElement, appendFrag, appendWouldSkip, toFragment, hne,
      dictGet_fresh ps h v hmem, dictAppendAt_fresh ps h v _ hmem]

/-- Helper: heading texts of a document starting with a heading. -/
theorem headingTexts_cons_heading (u : String) (rest : List Element) :
    headingTexts (.heading u :: rest) = u :: headingTexts rest := by
  simp [headingTexts]

/-- Helper: heading texts ignore a leading non-heading element. -/
theorem headingTexts_cons_nonheading (e : Element) (he : isHeadingE e = false)
    (rest : List Element) : headingTexts (e :: rest) = headingTexts rest := by
  cases e <;> simp_all [headingTexts, isHeadingE]

/-- Helper: a key distinct from the appended one and absent before stays
absent. -/
theorem not_mem_dictKeys_append (ps : PageStructure) (h u : String)
    (v : List Fragment) (h1 : u ∉ dictKeys ps) (h2 : u ≠ h) :
    u ∉ dictKeys (ps ++ [(h, v)]) := by
  simp only [dictKeys, List.map_append, List.mem_append, List.map_cons,
    List.map_nil, List.mem_singleton]
  rintro (hc | hc)
  · exact h1 hc
  · exact h2 hc

/-- Helper: processing a document from an open section (current heading `h`
with accumulated value `v`, all earlier entries untouched) appends the
leading run of non-heading elements to `h` and then lays the later sections
out one after another, provided every upcoming heading is fresh. -/
theorem foldl_processElement_sectioned :
    ∀ (doc : List Element) (ps : PageStructure) (h : String) (v : List Fragment),
      h ∉ dictKeys ps →
      h ≠ "" →
      (headingTexts doc).Nodup →
      (∀ t ∈ headingTexts doc, t ∉ dictKeys ps ∧ t ≠ h ∧ t ≠ "") →
      (doc.foldl processElement (some h, ps ++ [(h, v)])).2
        = ps ++ (h, (splitSections doc).1.foldl appendFrag v)
            :: (splitSections doc).2.map (fun sec => (sec.1, sec.2.foldl appendFrag []))
  | [], ps, h, v, _, _, _, _ => by simp [splitSections]
  | .heading u :: rest, ps, h, v, hmem, hne, hnd, hfresh => by
    rw [headingTexts_cons_heading] at hnd hfresh
    obtain ⟨hups, huh, hue⟩ := hfresh u (List.mem_cons_self u _)
    have hnd2 : (headingTexts rest).Nodup := (List.nodup_cons.mp hnd).2
    have hu2 : u ∉ headingTexts rest := (List.nodup_cons.mp hnd).1
    have hstep : processElement (some h, ps ++ [(h, v)]) (.heading u)
        = (some u, (ps ++ [(h, v)]) ++ [(u, [])]) := by
      simp only [processElement]
      rw [dictSet_fresh _ _ _ (not_mem_dictKeys_append ps h u v hups huh)]
    rw [List.foldl_cons, hstep,
      foldl_processElement_sectioned rest (ps ++ [(h, v)]) u []
        (not_mem_dictKeys_append ps h u v hups huh)
        hue
        hnd2
        (by
          intro t ht
          obtain ⟨htps, hth, hte⟩ := hfresh t (List.mem_cons_of_mem u ht)
          refine ⟨not_mem_dictKeys_append ps h t v htps hth, ?_, hte⟩
          rintro rfl
          exact hu2 ht)]
    simp [splitSections]
  | .par t :: rest, ps, h, v, hmem, hne, hnd, hfresh => by
    rw [headingTexts_cons_nonheading (.par t) rfl] at hnd hfresh
    rw [List.foldl_cons, processElement_extend (.par t) rfl h ps v hmem hne,
      foldl_processElement_sectioned rest ps h (appendFrag v (.par t)) hmem hne hnd hfresh]
    simp [splitSections]
  | .pre t :: rest, ps, h, v, hmem, hne, hnd, hfresh => by
    rw [headingTexts_cons_nonheading (.pre t) rfl] at hnd hfresh
    rw [List.foldl_cons, processElement_extend (.pre t) rfl h ps v hmem hne,
      foldl_processElement_sectioned rest ps h (appendFrag v (.pre t)) hmem hne hnd hfresh]
    simp [splitSections]
  | .code t :: rest, ps, h, v, hmem, hne, hnd, hfresh => by
    rw [headingTexts_cons_nonheading (.code t) rfl] at hnd hfresh
    rw [List.foldl_cons, processElement_extend (.code t) rfl h ps v hmem hne,
      foldl_processElement_sectioned rest ps h (appendFrag v (.code t)) hmem hne hnd hfresh]
    simp [splitSections]
  | .ulist l :: rest, ps, h, v, hmem, hne, hnd, hfresh => by
    rw [headingTexts_cons_nonheading (.ulist l) rfl] at hnd hfresh
    rw [List.foldl_cons, processElement_extend (.ulist l) rfl h ps v hmem hne,
      foldl_processElement_sectioned rest ps h (appendFrag v (.ulist l)) hmem hne hnd hfresh]
    simp [splitSections]
  | .olist l :: rest, ps, h, v, hmem, hne, hnd, hfresh => by
    rw [headingTexts_cons_nonheading (.olist l) rfl] at hnd hfresh
    rw [List.foldl_cons, processElement_extend (.olist l) rfl h ps v hmem hne,
      foldl_processElement_sectioned rest ps h (appendFrag v (.olist l)) hmem hne hnd hfresh]
    simp [splitSections]
  | .table hd rws :: rest, ps, h, v, hmem, hne, hnd, hfresh => by
    rw [headingTexts_cons_nonheading (.table hd rws) rfl] at hnd hfresh
    rw [List.foldl_cons, processElement_extend (.table hd rws) rfl h ps v hmem hne,
      foldl_processElement_sectioned rest ps h (appendFrag v (.table hd rws)) hmem hne hnd hfresh]
    simp [splitSections]

/-- Helper: with pairwise-distinct heading texts, the whole extraction equals
the per-section fold: content before the first heading is dropped, and each
heading maps to its following elements folded through the guarded append. -/
theorem extract_eq_sections :
    ∀ doc : List Element, (headingTexts doc).Nodup → "" ∉ headingTexts doc →
      extract_text_from_page doc
        = (sections doc).map (fun sec => (sec.1, sec.2.foldl appendFrag []))
  | [], _, _ => rfl
  | .heading u :: rest, hnd, hemp => by
    rw [headingTexts_cons_heading] at hnd hemp
    unfold extract_text_from_page
    have hstep : processElement (none, []) (.heading u) = (some u, [] ++ [(u, [])]) := rfl
    rw [List.foldl_cons, hstep,
      foldl_processElement_sectioned rest [] u []
        (by simp [dictKeys])
        (by
          rintro rfl
          exact hemp (List.mem_cons_self _ _))
        ((List.nodup_cons.mp hnd).2)
        (by
          intro t ht
          refine ⟨by simp [dictKeys], ?_, ?_⟩
          · rintro rfl
            exact (List.nodup_cons.mp hnd).1 ht
          · rintro rfl
            exact hemp (List.mem_cons_of_mem u ht))]
    simp [sections, splitSections]
  | .par t :: rest, hnd, hemp => by
    rw [headingTexts_cons_nonheading (.par t) rfl] at hnd hemp
    unfold extract_text_from_page
    rw [List.foldl_cons, processElement_none (.par t) rfl []]
    exact extract_eq_sections rest hnd hemp
  | .pre t :: rest, hnd, hemp => by
    rw [headingTexts_cons_nonheading (.pre t) rfl] at hnd hemp
    unfold extract_text_from_page
    rw [List.foldl_cons, processElement_none (.pre t) rfl []]
    exact extract_eq_sections rest hnd hemp
  | .code t :: rest, hnd, hemp => by
    rw [headingTexts_cons_nonheading (.code t) rfl] at hnd hemp
    unfold extract_text_from_page
    rw [List.foldl_cons, processElement_none (.code t) rfl []]
    exact extract_eq_sections rest hnd hemp
  | .ulist l :: rest, hnd, hemp => by
    rw [headingTexts_cons_nonheading (.ulist l) rfl] at hnd hemp
    unfold extract_text_from_page
    rw [List.foldl_cons, processElement_none (.ulist l) rfl []]
    exact extract_eq_sections rest hnd hemp
  | .olist l :: rest, hnd, hemp => by
    rw [headingTexts_cons_nonheading (.olist l) rfl] at hnd hemp
    unfold extract_text_from_page
    rw [List.foldl_cons, processElement_none (.olist l) rfl []]
    exact extract_eq_sections rest hnd hemp
  | .table hd rws :: rest, hnd, hemp => by
    rw [headingTexts_cons_nonheading (.table hd rws) rfl] at hnd hemp
    unfold extract_text_from_page
    rw [List.foldl_cons, processElement_none (.table hd rws) rfl []]
    exact extract_eq_sections rest hnd hemp

/-- Helper: when the duplicate skip never fires on a run of elements, the
guarded fold appends every fragment. -/
theorem foldl_appendFrag_skipFree :
    ∀ (l : List Element) (cur : List Fragment), skipFreeFold cur l = true →
      l.foldl appendFrag cur = cur ++ l.filterMap toFragment
  | [], cur, _ => by simp
  | e :: rest, cur, h => by
    have hb : appendWouldSkip cur e = false := by
      by_contra hb
      rw [Bool.not_eq_false] at hb
      simp [skipFreeFold, hb] at h
    have h2 : skipFreeFold (appendFrag cur e) rest = true := by
      simpa [skipFreeFold, hb] using h
    rw [List.foldl_cons, foldl_appendFrag_skipFree rest (appendFrag cur e) h2]
    cases hf : toFragment e <;>
      simp [appendFrag, hb, hf, List.filterMap_cons]

/-- C4 (counterexample): the claim fails as stated.  For a successfully
fetched page holding a duplicated code block under one heading, the returned
mapping is not the full ordered sequence of fragments under the heading — the
duplicate-skip drops the second copy. -/
theorem c4_counterexample :
    extract_text_from_page_url (fun _ => .ok docDupCode) ("https://example.com/a")
      ≠ .ok (specPageStructure docDupCode) := by
  intro h
  have h2 : extract_text_from_page docDupCode = specPageStructure docDupCode :=
    Except.ok.inj h
  exact absurd h2 (by decide)

/-- C4 (amended): for every URL whose page is fetched successfully, if the
page's heading texts are pairwise distinct and non-empty (the Python
truthiness guard drops every fragment following an empty-text heading) and
the duplicate-skip check never fires (no code or preformatted fragment under
a heading repeats the stored text of an earlier code/pre entry — or the
empty-string default of another entry — and no list repeats an earlier
stored list value), then `extract_text_from_page` returns exactly the
mapping from each heading text to the ordered sequence, in document order,
of the content fragments under that heading; fragments before the first
heading are dropped. -/
theorem c4_amended_extraction (fetch : String → Except ScrapingError (List Element))
    (url : String) (doc : List Element) (hf : fetch url = .ok doc)
    (hnd : (headingTexts doc).Nodup) (hemp : "" ∉ headingTexts doc)
    (hns : noSkips doc = true) :
    extract_text_from_page_url fetch url = .ok (specPageStructure doc) := by
  unfold extract_text_from_page_url
  rw [hf]
  show Except.ok (extract_text_from_page doc) = Except.ok (specPageStructure doc)
  rw [extract_eq_sections doc hnd hemp]
  unfold specPageStructure
  have : ∀ sec ∈ sections doc,
      (fun sec => (sec.1, sec.2.foldl appendFrag [])) sec
        = (fun sec => (sec.1, sec.2.filterMap toFragment)) sec := by
    intro sec hsec
    have hfree := List.all_eq_true.mp hns sec hsec
    simp only []
    rw [foldl_appendFrag_skipFree sec.2 [] hfree, List.nil_append]
  rw [List.map_congr_left this]

/-- C4 (witness): concrete page with a leading-free, duplicate-free body. -/
theorem c4_witness :
    extract_text_from_page_url (fun _ => .ok docPlain) ("https://example.com/a")
      = .ok (specPageStructure docPlain) :=
  c4_amended_extraction (fun _ => .ok docPlain) ("https://example.com/a") docPlain rfl
    (by decide) (by decide) (by decide)

/-- Helper: keys after a dict write. -/
theorem dictKeys_dictSet (ps : PageStructure) (k : String) (v : List Fragment) :
    dictKeys (dictSet ps k v)
      = if k ∈ dictKeys ps then dictKeys ps else dictKeys ps ++ [k] := by
  induction ps with
  | nil => simp [dictSet, dictKeys]
  | cons kv rest ih =>
    obtain ⟨k0, w⟩ := kv
    by_cases hk : k0 = k
    · subst hk
      simp [dictSet, dictKeys]
    · simp only [dictSet, if_neg hk, dictKeys, List.map_cons, List.mem_cons]
      rw [show dictKeys (dictSet rest k v) = List.map Prod.fst (dictSet rest k v) from rfl] at ih
      rw [ih]
      by_cases hmem : k ∈ List.map Prod.fst rest
      · simp [hmem, dictKeys]
      · simp [hmem, dictKeys, Ne.symm hk]

/-- Helper: entries after a dict write come from the old dict or are the new
entry. -/
theorem mem_dictSet (ps : PageStructure) (k : String) (v : List Fragment) :
    ∀ kv ∈ dictSet ps k v, kv ∈ ps ∨ kv = (k, v) := by
  induction ps with
  | nil => simp [dictSet]
  | cons kv0 rest ih =>
    obtain ⟨k0, w⟩ := kv0
    by_cases hk : k0 = k
    · subst hk
      simp only [dictSet, if_pos rfl]
      intro kv hkv
      rcases List.mem_cons.mp hkv with rfl | hkv
      · exact Or.inr rfl
      · exact Or.inl (List.mem_cons_of_mem _ hkv)
    · simp only [dictSet, if_neg hk]
      intro kv hkv
      rcases List.mem_cons.mp hkv with rfl | hkv
      · exact Or.inl (List.mem_cons_self _ _)
      · rcases ih kv hkv with h | h
        · exact Or.inl (List.mem_cons_of_mem _ h)
        · exact Or.inr h

/-- Helper: keys are unchanged by an append-at. -/
theorem dictKeys_dictAppendAt (ps : PageStructure) (h : String) (f : Fragment) :
    dictKeys (dictAppendAt ps h f) = dictKeys ps := by
  induction ps with
  | nil => rfl
  | cons kv rest ih =>
    obtain ⟨k0, w⟩ := kv
    simp only [dictAppendAt, List.map_cons] at ih ⊢
    by_cases hk : k0 = h
    · simp only [dictKeys, hk, List.map_cons, if_pos rfl] at ih ⊢
      simp [ih]
    · simp only [dictKeys, List.map_cons] at ih ⊢
      simp [hk, ih]

/-- Helper: reading an absent key gives the default empty list. -/
theorem dictGet_absent (ps : PageStructure) (h : String)
    (hmem : h ∉ dictKeys ps) : dictGet ps h = [] := by
  induction ps with
  | nil => rfl
  | cons kv rest ih =>
    obtain ⟨k0, w⟩ := kv
    simp only [dictKeys, List.map_cons, List.mem_cons, not_or] at hmem
    simp only [dictGet, if_neg (Ne.symm hmem.1)]
    exact ih (by simpa [dictKeys] using hmem.2)

/-- Helper: a present key's entry, with its stored value, is in the dict. -/
theorem mem_of_dictGet (ps : PageStructure) (h : String)
    (hmem : h ∈ dictKeys ps) : (h, dictGet ps h) ∈ ps := by
  induction ps with
  | nil => simp [dictKeys] at hmem
  | cons kv rest ih =>
    obtain ⟨k0, w⟩ := kv
    by_cases hk : k0 = h
    · subst hk
      simp [dictGet]
    · simp only [dictKeys, List.map_cons, List.mem_cons] at hmem
      rcases hmem with rfl | hmem
      · exact absurd rfl hk
      · simp only [dictGet, if_neg hk]
        exact List.mem_cons_of_mem _ (ih hmem)

/-- Helper: entries after an append-at come from the old dict or extend the
value stored at the key (keys assumed distinct). -/
theorem mem_dictAppendAt (ps : PageStructure) (h : String) (f : Fragment)
    (hnd : (dictKeys ps).Nodup) :
    ∀ kv ∈ dictAppendAt ps h f, kv ∈ ps ∨ kv = (h, dictGet ps h ++ [f]) := by
  induction ps with
  | nil => simp [dictAppendAt]
  | cons kv0 rest ih =>
    obtain ⟨k0, w⟩ := kv0
    have hndc : (k0 :: dictKeys rest).Nodup := hnd
    have hnd2 : (dictKeys rest).Nodup := (List.nodup_cons.mp hndc).2
    by_cases hk : k0 = h
    · subst hk
      have habs : k0 ∉ dictKeys rest := (List.nodup_cons.mp hndc).1
      simp only [dictAppendAt, List.map_cons, if_pos rfl]
      rw [show rest.map (fun kv => if kv.1 = k0 then (kv.1, kv.2 ++ [f]) else kv) = rest from by
        have := dictAppendAt_absent rest k0 f habs
        simpa [dictAppendAt] using this]
      intro kv hkv
      rcases List.mem_cons.mp hkv with rfl | hkv
      · right
        simp [dictGet]
      · exact Or.inl (List.mem_cons_of_mem _ hkv)
    · simp only [dictAppendAt, List.map_cons, if_neg hk]
      intro kv hkv
      rcases List.mem_cons.mp hkv with rfl | hkv
      · exact Or.inl (List.mem_cons_self _ _)
      · rcases ih hnd2 kv (by simpa [dictAppendAt] using hkv) with hc | hc
        · exact Or.inl (List.mem_cons_of_mem _ hc)
        · right
          rw [hc]
          simp [dictGet, if_neg hk]

/-- Helper: appending a fragment that clashes with nothing preserves the
pairwise no-duplicate property. -/
theorem noDupFragB_append (v : List Fragment) (f : Fragment)
    (hv : noDupFragB v = true) (hcl : ∀ g ∈ v, clashB g f = false) :
    noDupFragB (v ++ [f]) = true := by
  induction v with
  | nil => simp [noDupFragB]
  | cons g rest ih =>
    simp only [noDupFragB, Bool.and_eq_true] at hv
    simp only [List.cons_append, noDupFragB, Bool.and_eq_true, List.all_append,
      List.all_cons, List.all_nil, Bool.and_true]
    refine ⟨?_, ?_⟩
    · simp only [List.append_eq, List.all_append, List.all_cons, List.all_nil,
        Bool.and_true, Bool.and_eq_true]
      exact ⟨hv.1, by simp [hcl g (List.mem_cons_self g rest)]⟩
    · simp only [List.append_eq]
      exact ih hv.2 (fun x hx => hcl x (List.mem_cons_of_mem g hx))

/-- Helper: when the duplicate-skip test passes, the incoming fragment
clashes with no stored fragment. -/
theorem appendWouldSkip_no_clash (cur : List Fragment) (e : Element) (f : Fragment)
    (hb : appendWouldSkip cur e = false) (hf : toFragment e = some f) :
    ∀ g ∈ cur, clashB g f = false := by
  intro g hg
  cases e with
  | heading t => simp [toFragment] at hf
  | par t =>
    obtain rfl : f = .par t := by simpa [toFragment] using hf.symm
    cases g <;> simp [clashB]
  | pre t =>
    obtain rfl : f = .pre t := by simpa [toFragment] using hf.symm
    simp only [appendWouldSkip, List.any_eq_false, Bool.or_eq_true, not_or,
      decide_eq_true_eq] at hb
    obtain ⟨h1, h2⟩ := hb g hg
    cases g <;> simp_all [clashB, getPre, getCode, eq_comm]
  | code t =>
    obtain rfl : f = .code t := by simpa [toFragment] using hf.symm
    simp only [appendWouldSkip, List.any_eq_false, Bool.or_eq_true, not_or,
      decide_eq_true_eq] at hb
    obtain ⟨h1, h2⟩ := hb g hg
    cases g <;> simp_all [clashB, getPre, getCode, eq_comm]
  | ulist l =>
    obtain rfl : f = .ulist l := by simpa [toFragment] using hf.symm
    simp only [appendWouldSkip, List.any_eq_false, decide_eq_true_eq] at hb
    have := hb g hg
    cases g <;> simp_all [clashB, getUl, eq_comm]
  | olist l =>
    obtain rfl : f = .olist l := by simpa [toFragment] using hf.symm
    simp only [appendWouldSkip, List.any_eq_false, decide_eq_true_eq] at hb
    have := hb g hg
    cases g <;> simp_all [clashB, getOl, eq_comm]
  | table hd rws =>
    obtain rfl : f = .table hd rws := by simpa [toFragment] using hf.symm
    cases g <;> simp [clashB]

/-- Helper: one non-heading element preserves distinct keys and duplicate-free
values. -/
theorem processElement_inv_nonheading (cur : Option String) (ps : PageStructure)
    (e : Element) (he : isHeadingE e = false)
    (hk : (dictKeys ps).Nodup) (hv : ∀ kv ∈ ps, noDupFragB kv.2 = true) :
    (dictKeys (processElement (cur, ps) e).2).Nodup
      ∧ ∀ kv ∈ (processElement (cur, ps) e).2, noDupFragB kv.2 = true := by
  cases cur with
  | none =>
    rw [processElement_none e he ps]
    exact ⟨hk, hv⟩
  | some h =>
    by_cases hhe : h = ""
    · subst hhe
      have hpe : processElement (some "", ps) e = (some "", ps) := by
        cases e <;> simp_all [processElement, isHeadingE]
      rw [hpe]
      exact ⟨hk, hv⟩
    · cases hb : appendWouldSkip (dictGet ps h) e with
    | true =>
      have hpe : processElement (some h, ps) e = (some h, ps) := by
        cases e <;> simp_all [processElement, isHeadingE]
      rw [hpe]
      exact ⟨hk, hv⟩
    | false =>
      cases hf : toFragment e with
      | none =>
        have hpe : processElement (some h, ps) e = (some h, ps) := by
          cases e <;> simp_all [processElement, isHeadingE, toFragment]
        rw [hpe]
        exact ⟨hk, hv⟩
      | some f =>
        have hpe : processElement (some h, ps) e = (some h, dictAppendAt ps h f) := by
          cases e <;> simp_all [processElement, isHeadingE, toFragment]
        rw [hpe]
        refine ⟨by rw [dictKeys_dictAppendAt]; exact hk, ?_⟩
        intro kv hkv
        rcases mem_dictAppendAt ps h f hk kv hkv with hc | hc
        · exact hv kv hc
        · rw [hc]
          by_cases hmem : h ∈ dictKeys ps
          · exact noDupFragB_append _ f (hv _ (mem_of_dictGet ps h hmem))
              (appendWouldSkip_no_clash _ e f hb hf)
          · rw [dictGet_absent ps h hmem]
            simp [noDupFragB]

/-- Helper: every element preserves distinct keys and duplicate-free
values. -/
theorem processElement_inv (st : Option String × PageStructure) (e : Element)
    (hk : (dictKeys st.2).Nodup) (hv : ∀ kv ∈ st.2, noDupFragB kv.2 = true) :
    (dictKeys (processElement st e).2).Nodup
      ∧ ∀ kv ∈ (processElement st e).2, noDupFragB kv.2 = true := by
  obtain ⟨cur, ps⟩ := st
  cases e with
  | heading t =>
    have hpe : processElement (cur, ps) (.heading t) = (some t, dictSet ps t []) := rfl
    rw [hpe]
    refine ⟨?_, ?_⟩
    · rw [show dictKeys (some t, dictSet ps t []).2 = dictKeys (dictSet ps t []) from rfl,
        dictKeys_dictSet]
      split_ifs with hmem
      · exact hk
      · rw [List.nodup_append]
        refine ⟨hk, List.nodup_singleton t, ?_⟩
        intro a ha
        simp only [List.mem_singleton]
        rintro rfl
        exact hmem ha
    · intro kv hkv
      rcases mem_dictSet ps t [] kv hkv with hc | hc
      · exact hv kv hc
      · rw [hc]
        rfl
  | par t => exact processElement_inv_nonheading cur ps (.par t) rfl hk hv
  | pre t => exact processElement_inv_nonheading cur ps (.pre t) rfl hk hv
  | code t => exact processElement_inv_nonheading cur ps (.code t) rfl hk hv
  | ulist l => exact processElement_inv_nonheading cur ps (.ulist l) rfl hk hv
  | olist l => exact processElement_inv_nonheading cur ps (.olist l) rfl hk hv
  | table hd rws => exact processElement_inv_nonheading cur ps (.table hd rws) rfl hk hv

/-- Helper: the whole walk preserves distinct keys and duplicate-free
values. -/
theorem foldl_processElement_inv :
    ∀ (doc : List Element) (st : Option String × PageStructure),
      (dictKeys st.2).Nodup → (∀ kv ∈ st.2, noDupFragB kv.2 = true) →
      (dictKeys (doc.foldl processElement st).2).Nodup
        ∧ ∀ kv ∈ (doc.foldl processElement st).2, noDupFragB kv.2 = true
  | [], _, hk, hv => ⟨hk, hv⟩
  | e :: rest, st, hk, hv => by
    rw [List.foldl_cons]
    have h1 := processElement_inv st e hk hv
    exact foldl_processElement_inv rest _ h1.1 h1.2

/-- C10: content fragments appearing before the first heading of the page are
discarded (dropping any headingless leading run leaves the result unchanged),
and under each heading the returned fragment sequence contains no two
code-or-preformatted fragments with the same text, no two equal `ul` lists
and no two equal `ol` lists. -/
theorem c10_lead_dropped_and_no_duplicates (l doc : List Element)
    (hl : ∀ e ∈ l, isHeadingE e = false) :
    extract_text_from_page (l ++ doc) = extract_text_from_page doc
    ∧ (extract_text_from_page doc).all (fun kv => noDupFragB kv.2) = true := by
  constructor
  · unfold extract_text_from_page
    rw [List.foldl_append, foldl_processElement_none l hl []]
  · have hinv := foldl_processElement_inv doc (none, [])
      (by simp [dictKeys]) (by simp)
    exact List.all_eq_true.mpr (fun kv hkv => hinv.2 kv hkv)

/-- C10 (witness): a leading paragraph is dropped, and even for a page with a
duplicated code block the returned values are pairwise duplicate-free. -/
theorem c10_witness :
    extract_text_from_page ([.par ("lead fragment")] ++ docDupCode)
        = extract_text_from_page docDupCode
    ∧ (extract_text_from_page docDupCode).all (fun kv => noDupFragB kv.2) = true :=
  c10_lead_dropped_and_no_duplicates [.par ("lead fragment")] docDupCode (by decide)

/-- Helper: the Python truthiness guard in action — an empty-text heading
creates its (empty) entry, and the following fragment is dropped rather than
stored under the empty key. -/
theorem extract_empty_heading_drops :
    extract_text_from_page [.heading (""), .par ("x")] = [("", [])] := by
  decide
